import Mathlib

/-!
# practice-2: rate limiter and task storage

A shallow embedding of `middleware/middleware.go` (the token-bucket
`RateLimiter` and the two gates), `storage/storage.go` (the in-memory
`TaskStorage`), `handlers/handlers.go` (the route handlers) and the chain that
`main.go` builds from them, followed by theorems about them.

Modelling conventions.

* A Go `map[K]V` is an association list with at most one live entry per key:
  `GoMap.get` is `m[k]` (with the `exists` flag as `Option`), `GoMap.set` is
  `m[k] = v`. A map of pointers (`map[string]*clientBucket`) is a map of
  values; a mutation through the pointer is a write-back under the same key.
* A `time.Time` is an integer count of nanoseconds on one clock and a
  `time.Duration` is a 64-bit count of nanoseconds. `Time.Sub` is the
  difference of the two instants, saturated at the least and the greatest
  `Duration` (about 292 years either way); `Time.Add` is exact addition.
  Division of durations is Go's integer division, which truncates toward zero
  (`Int.tdiv`); the product `time.Duration(seconds) * time.Second` stays within
  64 bits, since `seconds` is at most 9223372036.
* `time.Now()` is an explicit argument `now` of `allow`.
* `int64` token counts and `int` identifiers are integers. Token counts only
  move between assignments of constants and a decrement of a positive value,
  so no machine overflow occurs on them. `nextID` starts at 1 and grows by one
  per stored task, so it stays far below the 64-bit bound of `int`.
* The mutexes are not modelled: every operation is one atomic state
  transition, returned as a pair of the new state and the Go return value.
* An `http.HandlerFunc` is a function from the shared state (store and
  limiter) and the request to the new state and the response written. A
  request is one that the mux routes to `/tasks`; the mux answers every other
  path itself, without running a handler.
* Of the standard library, `strings.TrimSpace` and `strconv.Atoi` are written
  out, `strings.ToLower` is a parameter of the handlers, and the JSON decoding
  of a request body is given with the request as its outcome.
-/

/-- A Go map as an association list; the first entry under a key is the live one. -/
abbrev GoMap (K V : Type) := List (K × V)

namespace GoMap

variable {K V : Type} [DecidableEq K]

/-- The lookup `v, exists := m[k]`. -/
def get : GoMap K V → K → Option V
  | [], _ => none
  | (k', v) :: m, k => if k' = k then some v else get m k

/-- The assignment `m[k] = v`: overwrite the entry of `k`, or add one. -/
def set : GoMap K V → K → V → GoMap K V
  | [], k, v => [(k, v)]
  | (k', v') :: m, k, v => if k' = k then (k, v) :: m else (k', v') :: set m k v

end GoMap

/-! ## models/models.go -/

namespace models

/-- The struct `Task`. -/
structure Task where
  ID : Int
  Title : String
  Done : Bool
deriving DecidableEq, Repr

/-- The struct `CreateTaskRequest`. -/
structure CreateTaskRequest where
  Title : String
deriving DecidableEq, Repr

/-- The struct `UpdateTaskRequest`. -/
structure UpdateTaskRequest where
  Done : Bool
deriving DecidableEq, Repr

/-- The struct `UpdateTaskResponse`. -/
structure UpdateTaskResponse where
  Updated : Bool
deriving DecidableEq, Repr

/-- The struct `ErrorResponse`. -/
structure ErrorResponse where
  Error : String
deriving DecidableEq, Repr

end models

/-! ## The package `time`, as far as the limiter uses it -/

namespace time

/-- The least `time.Duration`: `-2^63` nanoseconds. -/
def minDuration : Int := -9223372036854775808

/-- The greatest `time.Duration`: `2^63 - 1` nanoseconds. -/
def maxDuration : Int := 9223372036854775807

/-- The method `t.Sub(u)`: the duration `t - u`, or the greatest (least)
duration when `t - u` lies above (below) the range of `Duration`. -/
def Sub (t u : Int) : Int :=
  if t - u > maxDuration then maxDuration
  else if t - u < minDuration then minDuration
  else t - u

end time

/-! ## middleware/middleware.go -/

namespace middleware

/-- The constant `RequiredAPIKey`. -/
def RequiredAPIKey : String := "secret12345"

/-- The constant `RequestsPerSecond`. -/
def RequestsPerSecond : Int := 10

/-- The duration `time.Second`, in nanoseconds. -/
def Second : Int := 1000000000

/-- The struct `clientBucket`. -/
structure clientBucket where
  tokens : Int
  lastRefill : Int
deriving DecidableEq, Repr

/-- The struct `RateLimiter` (without its mutex). -/
structure RateLimiter where
  clients : GoMap String clientBucket
deriving DecidableEq, Repr

/-- The constructor `NewRateLimiter`. -/
def NewRateLimiter : RateLimiter :=
  { clients := [] }

/-- The refill step of `allow` (lines 80-86): after at least one whole elapsed
second the bucket is filled up and its `lastRefill` advanced by the whole seconds. -/
def refill (bucket : clientBucket) (now : Int) : clientBucket :=
  let elapsed := time.Sub now bucket.lastRefill
  let seconds := Int.tdiv elapsed Second
  if seconds ≥ 1 then
    { tokens := RequestsPerSecond, lastRefill := bucket.lastRefill + seconds * Second }
  else
    bucket

/-- The method `(*RateLimiter).allow`, with the clock reading `now` as an argument. -/
def RateLimiter.allow (rl : RateLimiter) (now : Int) (apiKey : String) : RateLimiter × Bool :=
  match rl.clients.get apiKey with
  | none =>
    ({ clients := rl.clients.set apiKey
        { tokens := RequestsPerSecond - 1, lastRefill := now } }, true)
  | some bucket =>
    let bucket := refill bucket now
    if bucket.tokens > 0 then
      ({ clients := rl.clients.set apiKey { bucket with tokens := bucket.tokens - 1 } }, true)
    else
      ({ clients := rl.clients.set apiKey bucket }, false)

/-- Successive calls `allow(apiKey)` at the clock readings `times`, in order:
the final limiter and the list of results. -/
def allowSeq (rl : RateLimiter) (apiKey : String) : List Int → RateLimiter × List Bool
  | [] => (rl, [])
  | now :: times =>
    let r := rl.allow now apiKey
    let rest := allowSeq r.1 apiKey times
    (rest.1, r.2 :: rest.2)

/-- The limiter states reachable from `NewRateLimiter` by calls of `allow`
with any keys and any clock readings. -/
inductive RateLimiter.Reachable : RateLimiter → Prop
  | init : RateLimiter.Reachable NewRateLimiter
  | step (rl : RateLimiter) (now : Int) (apiKey : String) :
      RateLimiter.Reachable rl → RateLimiter.Reachable (rl.allow now apiKey).1

/-- The limiter states reachable from `NewRateLimiter` by calls of `allow` at
clock readings that are all at most `T`. -/
inductive RateLimiter.ReachableBy (T : Int) : RateLimiter → Prop
  | init : RateLimiter.ReachableBy T NewRateLimiter
  | step (rl : RateLimiter) (now : Int) (apiKey : String) :
      now ≤ T → RateLimiter.ReachableBy T rl →
      RateLimiter.ReachableBy T (rl.allow now apiKey).1

end middleware

/-! ## storage/storage.go -/

namespace storage

/-- The struct `TaskStorage` (without its mutex). -/
structure TaskStorage where
  tasks : GoMap Int models.Task
  nextID : Int
deriving DecidableEq, Repr

/-- The constructor `NewTaskStorage`. -/
def NewTaskStorage : TaskStorage :=
  { tasks := [], nextID := 1 }

/-- The method `(*TaskStorage).Create`: the new store and the returned task. -/
def TaskStorage.Create (s : TaskStorage) (title : String) : TaskStorage × models.Task :=
  let task : models.Task := { ID := s.nextID, Title := title, Done := false }
  ({ tasks := s.tasks.set s.nextID task, nextID := s.nextID + 1 }, task)

/-- The method `(*TaskStorage).GetAll`. Go leaves the iteration order of a map
unspecified; the model lists the tasks in the order of the association list. -/
def TaskStorage.GetAll (s : TaskStorage) : List models.Task :=
  s.tasks.map Prod.snd

/-- The method `(*TaskStorage).GetByID`: the task (the zero `Task` when absent)
and the `exists` flag. -/
def TaskStorage.GetByID (s : TaskStorage) (id : Int) : models.Task × Bool :=
  match s.tasks.get id with
  | some task => (task, true)
  | none => ({ ID := 0, Title := "", Done := false }, false)

/-- The method `(*TaskStorage).Update`: the new store and the success flag. -/
def TaskStorage.Update (s : TaskStorage) (id : Int) (done : Bool) : TaskStorage × Bool :=
  match s.tasks.get id with
  | none => (s, false)
  | some task => ({ s with tasks := s.tasks.set id { task with Done := done } }, true)

/-- A mutating call on the store: `Create(title)` or `Update(id, done)`. -/
inductive Call where
  | create (title : String)
  | update (id : Int) (done : Bool)
deriving DecidableEq, Repr

/-- Run a sequence of calls from the store `s`: the final store and the tasks
returned by the `Create` calls, in call order. -/
def runCalls (s : TaskStorage) : List Call → TaskStorage × List models.Task
  | [] => (s, [])
  | Call.create title :: calls =>
    let r := s.Create title
    let rest := runCalls r.1 calls
    (rest.1, r.2 :: rest.2)
  | Call.update id done :: calls =>
    runCalls (s.Update id done).1 calls

/-- The store states reachable from `NewTaskStorage` by calls of its methods.
`Create` and `Update` give a new store; `GetAll` and `GetByID` only read the
store and give no new one, so they add no states. -/
inductive TaskStorage.Reachable : TaskStorage → Prop
  | init : TaskStorage.Reachable NewTaskStorage
  | create (s : TaskStorage) (title : String) :
      TaskStorage.Reachable s → TaskStorage.Reachable (s.Create title).1
  | update (s : TaskStorage) (id : Int) (done : Bool) :
      TaskStorage.Reachable s → TaskStorage.Reachable (s.Update id done).1

/-- The representation invariant of the store: a task is stored under its own
ID, and every stored ID lies in `[1, nextID)`. -/
def TaskStorage.WellFormed (s : TaskStorage) : Prop :=
  ∀ id task, s.tasks.get id = some task → task.ID = id ∧ 1 ≤ id ∧ id < s.nextID

end storage

/-! ## The standard library, as far as the handlers use it -/

namespace http

/-- The status code `http.StatusOK`. -/
def StatusOK : Nat := 200

/-- The status code `http.StatusCreated`. -/
def StatusCreated : Nat := 201

/-- The status code `http.StatusBadRequest`. -/
def StatusBadRequest : Nat := 400

/-- The status code `http.StatusUnauthorized`. -/
def StatusUnauthorized : Nat := 401

/-- The status code `http.StatusNotFound`. -/
def StatusNotFound : Nat := 404

/-- The status code `http.StatusMethodNotAllowed`. -/
def StatusMethodNotAllowed : Nat := 405

/-- The status code `http.StatusTooManyRequests`. -/
def StatusTooManyRequests : Nat := 429

/-- The method name `http.MethodGet`. -/
def MethodGet : String := "GET"

/-- The method name `http.MethodPost`. -/
def MethodPost : String := "POST"

/-- The method name `http.MethodPatch`. -/
def MethodPatch : String := "PATCH"

/-- A request that the mux routes to the pattern `/tasks`, as far as the code
reads it: the method, the `X-API-KEY` header and the query parameters `id` and
`done` (each `none` when absent), and the body. The body is given by what
`json.NewDecoder(r.Body).Decode` makes of it for each of the two request
structs (`none` when `Decode` returns an error). -/
structure Request where
  Method : String
  apiKeyHeader : Option String
  queryID : Option String
  queryDone : Option String
  createBody : Option models.CreateTaskRequest
  updateBody : Option models.UpdateTaskRequest
deriving DecidableEq, Repr

/-- The lookups `r.Header.Get(key)` and `r.URL.Query().Get(key)`: the value, or
the empty string when the key is absent. -/
def Get (value : Option String) : String :=
  value.getD ""

/-- What a handler encodes into the response body. -/
inductive Body where
  | empty
  | error (e : models.ErrorResponse)
  | task (t : models.Task)
  | tasks (ts : List models.Task)
  | updated (u : models.UpdateTaskResponse)
deriving DecidableEq, Repr

/-- What a handler writes to its `http.ResponseWriter`: the status code and the body. -/
structure Response where
  status : Nat
  body : Body
deriving DecidableEq, Repr

end http

namespace strings

/-- The predicate `unicode.IsSpace`: the code points with the White_Space property. -/
def isSpace (c : Char) : Bool :=
  let n := c.toNat
  (decide (9 ≤ n) && decide (n ≤ 13)) || n == 32 || n == 0x85 || n == 0xA0 || n == 0x1680
    || (decide (0x2000 ≤ n) && decide (n ≤ 0x200A)) || n == 0x2028 || n == 0x2029
    || n == 0x202F || n == 0x205F || n == 0x3000

/-- The function `strings.TrimSpace`: drop the leading and the trailing white space. -/
def TrimSpace (s : String) : String :=
  String.mk ((s.toList.dropWhile isSpace).reverse.dropWhile isSpace).reverse

/-- The lower-casing of the ASCII letters: what `strings.ToLower` does on ASCII
text. It stands in for `ToLower` where a concrete request is evaluated. -/
def ToLowerASCII (s : String) : String :=
  String.mk (s.toList.map Char.toLower)

end strings

namespace strconv

/-- A decimal digit `0` to `9`. -/
def isDigit (c : Char) : Bool :=
  decide (48 ≤ c.toNat) && decide (c.toNat ≤ 57)

/-- The function `strconv.Atoi` for a 64-bit `int`: an optional sign, then one
or more decimal digits, with a value in the range of `int`; `none` is an error. -/
def Atoi (s : String) : Option Int :=
  let cs := s.toList
  let ds := match cs with
    | '-' :: rest => rest
    | '+' :: rest => rest
    | _ => cs
  if ds.isEmpty || !ds.all isDigit then none
  else
    let n : Int := ds.foldl (fun a c => a * 10 + ((c.toNat - 48 : Nat) : Int)) 0
    let v : Int := if cs.head? = some '-' then -n else n
    if -9223372036854775808 ≤ v ∧ v ≤ 9223372036854775807 then some v else none

end strconv

/-! ## handlers/handlers.go

`strings.ToLower` (the lower-casing of Unicode) is a parameter `ToLower` of the
handlers; every theorem holds for each function put in its place. -/

namespace handlers

open http

/-- The struct `TaskHandler`. -/
structure TaskHandler where
  storage : storage.TaskStorage
deriving DecidableEq, Repr

/-- The constructor `NewTaskHandler`. -/
def NewTaskHandler (storage : storage.TaskStorage) : TaskHandler :=
  { storage := storage }

/-- The method `sendJSON`: the status and the encoded data. -/
def sendJSON (data : Body) (status : Nat) : Response :=
  { status := status, body := data }

/-- The method `sendError`: the status and an `ErrorResponse` with the message. -/
def sendError (message : String) (status : Nat) : Response :=
  { status := status, body := Body.error { Error := message } }

/-- The function `parseBool`; `none` is the error return. -/
def parseBool (ToLower : String → String) (s : String) : Option Bool :=
  let s := ToLower (strings.TrimSpace s)
  if s = "true" then some true
  else if s = "false" then some false
  else none

/-- The method `(*TaskHandler).GetTasks`. -/
def TaskHandler.GetTasks (ToLower : String → String) (h : TaskHandler) (r : Request) :
    TaskHandler × Response :=
  if r.Method ≠ MethodGet then
    (h, sendError "method not allowed" StatusMethodNotAllowed)
  else
    let idStr := Get r.queryID
    let doneStr := Get r.queryDone
    if idStr ≠ "" then
      match strconv.Atoi idStr with
      | none => (h, sendError "invalid id" StatusBadRequest)
      | some id =>
        let found := h.storage.GetByID id
        if !found.2 then
          (h, sendError "task not found" StatusNotFound)
        else if doneStr ≠ "" then
          match parseBool ToLower doneStr with
          | none => (h, sendError "invalid done parameter" StatusBadRequest)
          | some done =>
            if found.1.Done ≠ done then
              (h, sendError "task not found" StatusNotFound)
            else
              (h, sendJSON (Body.task found.1) StatusOK)
        else
          (h, sendJSON (Body.task found.1) StatusOK)
    else
      let tasks := h.storage.GetAll
      if doneStr ≠ "" then
        match parseBool ToLower doneStr with
        | none => (h, sendError "invalid done parameter" StatusBadRequest)
        | some done =>
          (h, sendJSON (Body.tasks (tasks.filter (fun task => task.Done == done))) StatusOK)
      else
        (h, sendJSON (Body.tasks tasks) StatusOK)

/-- The method `(*TaskHandler).CreateTask`. -/
def TaskHandler.CreateTask (h : TaskHandler) (r : Request) : TaskHandler × Response :=
  if r.Method ≠ MethodPost then
    (h, sendError "method not allowed" StatusMethodNotAllowed)
  else
    match r.createBody with
    | none => (h, sendError "invalid request body" StatusBadRequest)
    | some req =>
      if strings.TrimSpace req.Title = "" then
        (h, sendError "title cannot be empty" StatusBadRequest)
      else
        let created := h.storage.Create req.Title
        ({ storage := created.1 }, sendJSON (Body.task created.2) StatusCreated)

/-- The method `(*TaskHandler).UpdateTask`. -/
def TaskHandler.UpdateTask (h : TaskHandler) (r : Request) : TaskHandler × Response :=
  if r.Method ≠ MethodPatch then
    (h, sendError "method not allowed" StatusMethodNotAllowed)
  else
    let idStr := Get r.queryID
    if idStr = "" then
      (h, sendError "id parameter required" StatusBadRequest)
    else
      match strconv.Atoi idStr with
      | none => (h, sendError "invalid id" StatusBadRequest)
      | some id =>
        match r.updateBody with
        | none => (h, sendError "invalid request body" StatusBadRequest)
        | some req =>
          let updated := h.storage.Update id req.Done
          if !updated.2 then
            ({ storage := updated.1 }, sendError "task not found" StatusNotFound)
          else
            ({ storage := updated.1 }, sendJSON (Body.updated { Updated := true }) StatusOK)

end handlers

/-! ## main.go and the middleware chain of middleware/middleware.go -/

namespace main

/-- The state that the closures built in `main` share: the task handler with
its store, and the rate limiter. -/
structure Server where
  taskHandler : handlers.TaskHandler
  rateLimiter : middleware.RateLimiter
deriving DecidableEq, Repr

/-- An `http.HandlerFunc`: from the shared state and a request to the new state
and the response written. -/
abbrev HandlerFunc := Server → http.Request → Server × http.Response

end main

namespace middleware

open http main

/-- The function `APIKeyMiddleware`. -/
def APIKeyMiddleware (next : HandlerFunc) : HandlerFunc :=
  fun sv r =>
    let apiKey := Get r.apiKeyHeader
    if apiKey ≠ RequiredAPIKey then
      (sv, { status := StatusUnauthorized, body := Body.error { Error := "unauthorized" } })
    else
      next sv r

/-- The function `RateLimitMiddleware`, for the limiter of the shared state and
the clock reading `now` that `allow` takes. -/
def RateLimitMiddleware (now : Int) (next : HandlerFunc) : HandlerFunc :=
  fun sv r =>
    let apiKey := Get r.apiKeyHeader
    let allowed := sv.rateLimiter.allow now apiKey
    if !allowed.2 then
      ({ sv with rateLimiter := allowed.1 },
        { status := StatusTooManyRequests,
          body := Body.error { Error := "rate limit exceeded" } })
    else
      next { sv with rateLimiter := allowed.1 } r

/-- The method `(*LoggingMiddleware).ServeHTTP`: it delegates and then prints a
line; the printed line is not part of the state. -/
def LoggingMiddleware.ServeHTTP (handler : HandlerFunc) : HandlerFunc :=
  fun sv r => handler sv r

end middleware

namespace main

open http

/-- The closure `tasksHandler` of `main`: the dispatch on the method. -/
def tasksHandler (ToLower : String → String) : HandlerFunc :=
  fun sv r =>
    let res :=
      if r.Method = MethodGet then sv.taskHandler.GetTasks ToLower r
      else if r.Method = MethodPost then sv.taskHandler.CreateTask r
      else if r.Method = MethodPatch then sv.taskHandler.UpdateTask r
      else (sv.taskHandler, { status := StatusMethodNotAllowed, body := Body.empty })
    ({ sv with taskHandler := res.1 }, res.2)

/-- The chain `handler` of `main`: the API-key gate around the rate-limit gate
around `tasksHandler`. -/
def handler (ToLower : String → String) (now : Int) : HandlerFunc :=
  middleware.APIKeyMiddleware (middleware.RateLimitMiddleware now (tasksHandler ToLower))

/-- What the server does with one request to `/tasks` that arrives when the
clock reads `now`: the logging wrapper around the chain. -/
def serve (ToLower : String → String) (sv : Server) (now : Int) (r : Request) :
    Server × Response :=
  middleware.LoggingMiddleware.ServeHTTP (handler ToLower now) sv r

/-- A request that clears both gates when it arrives in state `sv` at the clock
reading `now`: its key is the required one and the limiter allows it. -/
abbrev PassesGates (sv : Server) (now : Int) (r : Request) : Prop :=
  Get r.apiKeyHeader = middleware.RequiredAPIKey ∧
    (sv.rateLimiter.allow now (Get r.apiKeyHeader)).2 = true

/-- The state in which the route handler runs for a request that cleared the
gates: the limiter has charged the request, the store is untouched. -/
def charged (sv : Server) (now : Int) (r : Request) : Server :=
  { sv with rateLimiter := (sv.rateLimiter.allow now (Get r.apiKeyHeader)).1 }

/-- The state at the start of `main`: an empty store and a limiter without buckets. -/
def start : Server :=
  { taskHandler := handlers.NewTaskHandler storage.NewTaskStorage,
    rateLimiter := middleware.NewRateLimiter }

/-- Serve a sequence of requests, each with its clock reading, one after the
other: the final state and the responses in order. -/
def serveAll (ToLower : String → String) (sv : Server) :
    List (Int × Request) → Server × List Response
  | [] => (sv, [])
  | (now, r) :: rest =>
    let res := serve ToLower sv now r
    let tail := serveAll ToLower res.1 rest
    (tail.1, res.2 :: tail.2)

end main

/-! ## Association-list lemmas -/

namespace GoMap

variable {K V : Type} [DecidableEq K]

theorem get_set_self (m : GoMap K V) (k : K) (v : V) : get (set m k v) k = some v := by
  induction m with
  | nil => simp [set, get]
  | cons e m ih =>
    obtain ⟨k', v'⟩ := e
    by_cases h : k' = k <;> simp [set, get, h, ih]

theorem get_set_ne (m : GoMap K V) (k k' : K) (v : V) (hne : k ≠ k') :
    get (set m k v) k' = get m k' := by
  induction m with
  | nil => simp [set, get, hne]
  | cons e m ih =>
    obtain ⟨k1, v1⟩ := e
    by_cases h : k1 = k
    · subst h; simp [set, get, hne]
    · by_cases h2 : k1 = k'
      · subst h2; simp [set, get, h]
      · simp [set, get, h, h2, ih]

theorem set_get_self (m : GoMap K V) (k : K) (v : V) (h : get m k = some v) :
    set m k v = m := by
  induction m with
  | nil => simp [get] at h
  | cons e m ih =>
    obtain ⟨k1, v1⟩ := e
    by_cases h1 : k1 = k
    · subst h1; simp [get] at h; simp [set, h]
    · simp [get, h1] at h; simp [set, h1, ih h]

theorem set_set (m : GoMap K V) (k : K) (v w : V) : set (set m k v) k w = set m k w := by
  induction m with
  | nil => simp [set]
  | cons e m ih =>
    obtain ⟨k1, v1⟩ := e
    by_cases h1 : k1 = k <;> simp [set, h1, ih]

end GoMap

/-! ## Rate limiter: auxiliary lemmas -/

namespace middleware

theorem tdiv_Second (e : Int) :
    Int.tdiv e Second = if 0 ≤ e then e / 1000000000 else -((-e) / 1000000000) := by
  unfold Second
  split
  · next h => exact Int.tdiv_eq_ediv h (by decide)
  · next h =>
    have h1 : e = -(-e) := by omega
    rw [h1, Int.neg_tdiv, Int.tdiv_eq_ediv (by omega) (by decide)]
    simp

theorem refill_eq (b : clientBucket) (now : Int) :
    refill b now =
      if 1000000000 ≤ now - b.lastRefill then
        { tokens := 10,
          lastRefill := b.lastRefill
            + min (now - b.lastRefill) 9223372036854775807 / 1000000000 * 1000000000 }
      else b := by
  unfold refill
  simp only [tdiv_Second, RequestsPerSecond, time.Sub, time.maxDuration, time.minDuration]
  by_cases h : 1000000000 ≤ now - b.lastRefill
  · by_cases hmax : now - b.lastRefill > 9223372036854775807
    · have hmin : min (now - b.lastRefill) 9223372036854775807 = 9223372036854775807 := by
        omega
      simp [h, hmax, hmin, Second]
    · have hlow : ¬ (now - b.lastRefill < -9223372036854775808) := by omega
      have h0 : 0 ≤ now - b.lastRefill := by omega
      have h1 : (now - b.lastRefill) / 1000000000 ≥ 1 := by omega
      have hmin : min (now - b.lastRefill) 9223372036854775807 = now - b.lastRefill := by
        omega
      simp [h, hmax, hlow, h0, h1, hmin, Second]
  · have hmax : ¬ (now - b.lastRefill > 9223372036854775807) := by omega
    by_cases hlow : now - b.lastRefill < -9223372036854775808
    · simp [h, hmax, hlow]
    · by_cases h0 : 0 ≤ now - b.lastRefill
      · have h1 : ¬ ((now - b.lastRefill) / 1000000000 ≥ 1) := by omega
        simp only [hmax, hlow, h0, if_true, if_false, h1, h]
      · have h1 : ¬ (-((-(now - b.lastRefill)) / 1000000000) ≥ 1) := by omega
        simp only [hmax, hlow, h0, if_false, h1, h]

theorem refill_of_lt (b : clientBucket) (now : Int) (h : now - b.lastRefill < Second) :
    refill b now = b := by
  rw [refill_eq]
  unfold Second at h
  simp; omega

theorem allow_fst_get_self (rl : RateLimiter) (now : Int) (k : String) :
    (rl.allow now k).1.clients.get k = some
      (match rl.clients.get k with
       | none => { tokens := 9, lastRefill := now }
       | some b =>
         if (refill b now).tokens > 0 then
           { refill b now with tokens := (refill b now).tokens - 1 }
         else refill b now) := by
  unfold RateLimiter.allow
  cases hg : rl.clients.get k with
  | none => simp [GoMap.get_set_self, RequestsPerSecond]
  | some b =>
    by_cases ht : (refill b now).tokens > 0 <;> simp [ht, GoMap.get_set_self]

theorem allow_fst_get_ne (rl : RateLimiter) (now : Int) (k k' : String) (hne : k ≠ k') :
    (rl.allow now k).1.clients.get k' = rl.clients.get k' := by
  unfold RateLimiter.allow
  cases hg : rl.clients.get k with
  | none => simp [GoMap.get_set_ne _ _ _ _ hne]
  | some b =>
    by_cases ht : (refill b now).tokens > 0 <;> simp [ht, GoMap.get_set_ne _ _ _ _ hne]

theorem allow_snd (rl : RateLimiter) (now : Int) (k : String) :
    (rl.allow now k).2 =
      (match rl.clients.get k with
       | none => true
       | some b => decide ((refill b now).tokens > 0)) := by
  unfold RateLimiter.allow
  cases hg : rl.clients.get k with
  | none => simp
  | some b =>
    by_cases ht : (refill b now).tokens > 0 <;> simp [ht]

/-- A denied call leaves the limiter as it was. -/
theorem allow_fst_of_deny (rl : RateLimiter) (now : Int) (k : String)
    (hd : (rl.allow now k).2 = false) : (rl.allow now k).1 = rl := by
  unfold RateLimiter.allow at hd ⊢
  cases hg : rl.clients.get k with
  | none => simp [hg] at hd
  | some b =>
    simp only [hg] at hd ⊢
    by_cases ht : (refill b now).tokens > 0
    · simp [ht] at hd
    · have hle : ¬ (1000000000 ≤ now - b.lastRefill) := by
        intro hge
        apply ht
        rw [refill_eq]
        simp [hge]
      have hr : refill b now = b := by
        rw [refill_eq]; simp [hle]
      rw [hr] at ht
      simp only [hr, ht, if_false]
      rw [GoMap.set_get_self _ _ _ hg]

/-- Within one window no refill happens: a bucket holding `n` tokens admits the
next `n` calls and denies the rest. -/
theorem allowSeq_drain (k : String) (L : Int) (ts : List Int) :
    ∀ (rl : RateLimiter) (n : Nat),
      rl.clients.get k = some { tokens := (n : Int), lastRefill := L } →
      (∀ t ∈ ts, t - L < Second) →
      (allowSeq rl k ts).2 =
        List.replicate (min n ts.length) true ++ List.replicate (ts.length - n) false := by
  induction ts with
  | nil => intro rl n _ _; simp [allowSeq]
  | cons t ts ih =>
    intro rl n hb hw
    have ht : t - L < Second := hw t (List.mem_cons_self _ _)
    have hw2 : ∀ u ∈ ts, u - L < Second := fun u hu => hw u (List.mem_cons_of_mem _ hu)
    have hr : ∀ x : Int, refill { tokens := x, lastRefill := L } t
        = { tokens := x, lastRefill := L } := fun x => refill_of_lt _ _ ht
    cases n with
    | zero =>
      have hs : (rl.allow t k).2 = false := by
        rw [allow_snd, hb]; simp [hr]
      have hf : (rl.allow t k).1 = rl := allow_fst_of_deny rl t k hs
      simp only [allowSeq, hs, hf]
      rw [ih rl 0 hb hw2]
      simp [List.replicate_succ]
    | succ m =>
      have hs : (rl.allow t k).2 = true := by
        rw [allow_snd, hb]; simp only [hr]; simp
      have hf : (rl.allow t k).1.clients.get k
          = some { tokens := (m : Int), lastRefill := L } := by
        rw [allow_fst_get_self, hb]
        simp only [hr]
        have hpos : ((m + 1 : Nat) : Int) > 0 := by omega
        simp [hpos]
      simp only [allowSeq, hs]
      rw [ih _ m hf hw2]
      simp [List.replicate_succ, Nat.succ_min_succ]

/-- Every bucket of a limiter satisfies `0 ≤ tokens ≤ 10`. -/
theorem allow_preserves_bounds (rl : RateLimiter) (now : Int) (a : String)
    (h : ∀ k b, rl.clients.get k = some b → 0 ≤ b.tokens ∧ b.tokens ≤ 10) :
    ∀ k b, (rl.allow now a).1.clients.get k = some b → 0 ≤ b.tokens ∧ b.tokens ≤ 10 := by
  intro k b hb
  by_cases hk : a = k
  · subst hk
    rw [allow_fst_get_self] at hb
    cases hg : rl.clients.get a with
    | none =>
      simp only [hg, Option.some.injEq] at hb
      subst hb
      simp
    | some b0 =>
      have h0 := h a b0 hg
      simp only [hg, Option.some.injEq] at hb
      rw [refill_eq] at hb
      by_cases hs : 1000000000 ≤ now - b0.lastRefill
      · simp [hs] at hb
        subst hb
        simp
      · simp only [hs, if_false] at hb
        by_cases ht : b0.tokens > 0
        · simp only [ht, if_true] at hb
          subst hb
          simp only
          omega
        · simp only [ht, if_false] at hb
          subst hb
          exact h0
  · rw [allow_fst_get_ne rl now a k hk] at hb
    exact h k b hb

theorem reachable_bounds_aux (rl : RateLimiter) (hr : RateLimiter.Reachable rl) :
    ∀ k b, rl.clients.get k = some b → 0 ≤ b.tokens ∧ b.tokens ≤ 10 := by
  induction hr with
  | init => intro k b hb; simp [NewRateLimiter, GoMap.get] at hb
  | step rl0 now a _ ih => exact allow_preserves_bounds rl0 now a ih

/-- An allowed call leaves at most 9 tokens in the bucket of its key. -/
theorem allow_true_tokens_le_nine (rl : RateLimiter) (now : Int) (k : String)
    (h : ∀ k b, rl.clients.get k = some b → 0 ≤ b.tokens ∧ b.tokens ≤ 10)
    (b : clientBucket) (hb : (rl.allow now k).1.clients.get k = some b)
    (hres : (rl.allow now k).2 = true) : b.tokens ≤ 9 := by
  rw [allow_fst_get_self] at hb
  rw [allow_snd] at hres
  cases hg : rl.clients.get k with
  | none =>
    simp only [hg, Option.some.injEq] at hb
    subst hb
    simp
  | some b0 =>
    have h0 := h k b0 hg
    simp only [hg, decide_eq_true_eq] at hres
    simp only [hg, hres, if_true, Option.some.injEq] at hb
    subst hb
    simp only
    rw [refill_eq]
    by_cases hs : 1000000000 ≤ now - b0.lastRefill
    · simp [hs]
    · simp only [hs, if_false]
      omega

/-- No bucket is ever refilled past the latest clock reading seen so far. -/
theorem lastRefill_le_clock (T : Int) (rl : RateLimiter) (hr : RateLimiter.ReachableBy T rl) :
    ∀ k b, rl.clients.get k = some b → b.lastRefill ≤ T := by
  induction hr with
  | init => intro k b hb; simp [NewRateLimiter, GoMap.get] at hb
  | step rl0 now a hnow _ ih =>
    intro k b hb
    by_cases hk : a = k
    · subst hk
      rw [allow_fst_get_self] at hb
      cases hg : rl0.clients.get a with
      | none =>
        simp only [hg, Option.some.injEq] at hb
        subst hb
        exact hnow
      | some b0 =>
        have h0 := ih a b0 hg
        simp only [hg, Option.some.injEq] at hb
        have hl : (refill b0 now).lastRefill ≤ T := by
          rw [refill_eq]
          by_cases hs : 1000000000 ≤ now - b0.lastRefill
          · simp only [hs, if_true]
            omega
          · simp only [hs, if_false]
            exact h0
        by_cases ht : (refill b0 now).tokens > 0
        · simp only [ht, if_true] at hb
          subst hb
          exact hl
        · simp only [ht, if_false] at hb
          subst hb
          exact hl
    · rw [allow_fst_get_ne rl0 now a k hk] at hb
      exact ih k b hb

/-- With a clock that never runs backwards, a call made at least one second
after a denied call of the same key is allowed. -/
theorem allow_one_second_after_deny (t : Int) (rl : RateLimiter)
    (hr : RateLimiter.ReachableBy t rl) (k : String) (now : Int)
    (hd : (rl.allow t k).2 = false) (hnow : t + Second ≤ now) :
    ((rl.allow t k).1.allow now k).2 = true := by
  rw [allow_fst_of_deny rl t k hd, allow_snd]
  cases hg : rl.clients.get k with
  | none => rfl
  | some b =>
    have hL := lastRefill_le_clock t rl hr k b hg
    unfold Second at hnow
    have hge : 1000000000 ≤ now - b.lastRefill := by omega
    simp only [refill_eq, hge, if_true]
    decide

theorem pairwise_true_then_false (a c : Nat) :
    List.Pairwise (fun r r' : Bool => r = false → r' = false)
      (List.replicate a true ++ List.replicate c false) := by
  induction a with
  | zero =>
    simp only [List.replicate_zero, List.nil_append]
    induction c with
    | zero => simp
    | succ c ih =>
      rw [List.replicate_succ, List.pairwise_cons]
      exact ⟨fun y hy _ => List.eq_of_mem_replicate hy, ih⟩
  | succ a ih =>
    rw [List.replicate_succ, List.cons_append, List.pairwise_cons]
    exact ⟨fun y _ hf => by simp at hf, ih⟩

theorem count_true_then_false (a c : Nat) :
    (List.replicate a true ++ List.replicate c false).count true = a := by
  simp [List.count_append, List.count_replicate]


end middleware

/-! ## Rate limiter: theorems -/

namespace middleware

/-- C1: starting from a limiter that holds no bucket for `k`, eleven successive
calls `allow(k)` at non-decreasing clock readings, all less than one second
after the first, return allow for calls 1 to 10 and deny for call 11. -/
theorem allow_fresh_key_ten_then_deny (rl : RateLimiter) (k : String) (t0 : Int)
    (ts : List Int) (hfresh : rl.clients.get k = none) (hlen : ts.length = 10)
    (_hmono : List.Pairwise (fun a b => a ≤ b) (t0 :: ts))
    (hwin : ∀ t ∈ ts, t < t0 + Second) :
    (allowSeq rl k (t0 :: ts)).2
      = [true, true, true, true, true, true, true, true, true, true, false] := by
  have hs : (rl.allow t0 k).2 = true := by rw [allow_snd, hfresh]
  have hf : (rl.allow t0 k).1.clients.get k
      = some { tokens := ((9 : Nat) : Int), lastRefill := t0 } := by
    rw [allow_fst_get_self, hfresh]; simp
  have hw : ∀ t ∈ ts, t - t0 < Second := fun t ht => by
    have := hwin t ht
    omega
  simp only [allowSeq, hs]
  rw [allowSeq_drain k t0 ts _ 9 hf hw, hlen]
  rfl

/-- Witness of C1: eleven calls of a new key within one second. -/
theorem allow_fresh_key_ten_then_deny_witness :
    (allowSeq NewRateLimiter "client"
        [5, 5, 6, 7, 8, 9, 10, 11, 12, 13, 1000000004]).2
      = [true, true, true, true, true, true, true, true, true, true, false] :=
  allow_fresh_key_ten_then_deny NewRateLimiter "client" 5
    [5, 6, 7, 8, 9, 10, 11, 12, 13, 1000000004]
    (by decide) (by decide) (by decide) (by decide)

/-- C2: when `k` already has a bucket `b` (with any token count) and the clock
reading `now` is at least one second after `b.lastRefill`, the call `allow(k)`
returns allow and leaves the bucket with 9 tokens; in particular, if a call at
any reading `t` was denied (which leaves the bucket as it was), the next call
at `now` is allowed and leaves 9 tokens. (`allow_one_second_after_deny` is the
same fact stated from the reading of the denied call, for a clock that never
runs backwards.) -/
theorem allow_after_one_second (rl : RateLimiter) (k : String) (b : clientBucket)
    (now : Int) (hb : rl.clients.get k = some b) (hel : now - b.lastRefill ≥ Second) :
    (rl.allow now k).2 = true ∧
    ((rl.allow now k).1.clients.get k).map clientBucket.tokens = some 9 ∧
    (∀ t : Int, (rl.allow t k).2 = false →
      ((rl.allow t k).1.allow now k).2 = true ∧
      (((rl.allow t k).1.allow now k).1.clients.get k).map clientBucket.tokens = some 9) := by
  have hge : 1000000000 ≤ now - b.lastRefill := hel
  have h1 : (rl.allow now k).2 = true := by
    rw [allow_snd, hb]
    simp only [refill_eq, hge, if_true]
    decide
  have h2 : ((rl.allow now k).1.clients.get k).map clientBucket.tokens = some 9 := by
    rw [allow_fst_get_self, hb]
    simp only [refill_eq, hge, if_true]
    simp
  refine ⟨h1, h2, ?_⟩
  intro t hd
  rw [allow_fst_of_deny rl t k hd]
  exact ⟨h1, h2⟩

/-- Witness of C2: a drained bucket, refilled 1.5 seconds after its last refill. -/
theorem allow_after_one_second_witness :
    (RateLimiter.allow { clients := [("client", { tokens := 0, lastRefill := 100 })] }
        1500000100 "client").2 = true :=
  (allow_after_one_second { clients := [("client", { tokens := 0, lastRefill := 100 })] }
    "client" { tokens := 0, lastRefill := 100 } 1500000100 (by decide) (by decide)).1

/-- C3: in every limiter state reachable from `NewRateLimiter` by calls of
`allow` (any keys, any clock readings, monotone or not), every bucket has
`0 ≤ tokens ≤ 10`. -/
theorem reachable_tokens_bounded (rl : RateLimiter) (hr : RateLimiter.Reachable rl)
    (k : String) (b : clientBucket) (hb : rl.clients.get k = some b) :
    0 ≤ b.tokens ∧ b.tokens ≤ 10 :=
  reachable_bounds_aux rl hr k b hb

/-- Witness of C3: the bucket after two calls, the second at an earlier clock reading. -/
theorem reachable_tokens_bounded_witness : (0 : Int) ≤ 8 ∧ (8 : Int) ≤ 10 :=
  reachable_tokens_bounded ((NewRateLimiter.allow 7 "client").1.allow 3 "client").1
    (RateLimiter.Reachable.step _ 3 "client"
      (RateLimiter.Reachable.step _ 7 "client" RateLimiter.Reachable.init))
    "client" { tokens := 8, lastRefill := 7 } (by decide)

/-- C4: when `allow(k)` returns deny, `k` has a bucket `b`, and the state after
the call is the state before it with only the refill of that call written back
to the bucket of `k` (no decrement, no further move of `lastRefill`, no other
bucket touched); as a denied call has no refill either, the state is the one
before the call. -/
theorem deny_leaves_state (rl : RateLimiter) (now : Int) (k : String)
    (hd : (rl.allow now k).2 = false) :
    (∃ b, rl.clients.get k = some b ∧
      (rl.allow now k).1 = { clients := rl.clients.set k (refill b now) } ∧
      refill b now = b) ∧
    (rl.allow now k).1 = rl := by
  have hsame := allow_fst_of_deny rl now k hd
  refine ⟨?_, hsame⟩
  cases hg : rl.clients.get k with
  | none => rw [allow_snd, hg] at hd; simp at hd
  | some b =>
    refine ⟨b, rfl, ?_, ?_⟩
    · unfold RateLimiter.allow at hd ⊢
      simp only [hg] at hd ⊢
      by_cases ht : (refill b now).tokens > 0
      · simp [ht] at hd
      · simp [ht]
    · rw [allow_snd, hg] at hd
      simp only [decide_eq_false_iff_not] at hd
      rw [refill_eq] at hd ⊢
      by_cases hs : 1000000000 ≤ now - b.lastRefill
      · simp [hs] at hd
      · simp [hs]

/-- Witness of C4: the eleventh call of a key within one second is denied. -/
theorem deny_leaves_state_witness :
    ((allowSeq NewRateLimiter "client" [0, 1, 2, 3, 4, 5, 6, 7, 8, 9]).1.allow 10 "client").1
      = (allowSeq NewRateLimiter "client" [0, 1, 2, 3, 4, 5, 6, 7, 8, 9]).1 :=
  (deny_leaves_state (allowSeq NewRateLimiter "client" [0, 1, 2, 3, 4, 5, 6, 7, 8, 9]).1
    10 "client" (by decide)).2

/-- C5, as stated, fails at a concrete call: a bucket last refilled at reading 0,
called 300 years (9460800000 s) later. `Time.Sub` saturates at the greatest
`Duration`, so `lastRefill` advances by 9223372036 s only, not by the
`s = 9460800000` whole seconds elapsed, and afterwards `now - lastRefill` is
237427964 s, not less than one second. -/
theorem refill_beyond_duration_range :
    GoMap.get [("client", ({ tokens := 3, lastRefill := 0 } : clientBucket))] "client"
      = some { tokens := 3, lastRefill := 0 } ∧
    Int.fdiv (9460800000000000000 - 0) Second = 9460800000 ∧
    (RateLimiter.allow { clients := [("client", { tokens := 3, lastRefill := 0 })] }
        9460800000000000000 "client").1.clients.get "client"
      = some { tokens := 9, lastRefill := 9223372036000000000 } ∧
    (9223372036000000000 : Int) ≠ 0 + 9460800000 * Second ∧
    ¬ ((9460800000000000000 : Int) - 9223372036000000000 < Second) := by
  decide

/-- C5, amended: for an existing bucket `b` of `k` and any clock reading `now`,
with `s = floor((now - b.lastRefill) / 1s)`: if `s ≥ 1` and `now - b.lastRefill`
is at most the greatest `time.Duration` (`2^63 - 1` ns, about 292 years),
`allow(k)` sets the bucket's `lastRefill` to `b.lastRefill + s` seconds (so that
afterwards `0 ≤ now - lastRefill < 1s`) and leaves 9 tokens; beyond that span
the bucket is refilled all the same (9 tokens left) and `lastRefill` advances by
9223372036 seconds; if `s < 1` (also when `now < b.lastRefill`), `lastRefill`
is unchanged and no token is refilled: the count is only decremented when it
was positive. -/
theorem refill_advances_whole_seconds (rl : RateLimiter) (k : String) (b : clientBucket)
    (now : Int) (hb : rl.clients.get k = some b) :
    ∃ b', (rl.allow now k).1.clients.get k = some b' ∧
      (1 ≤ Int.fdiv (now - b.lastRefill) Second →
        now - b.lastRefill ≤ time.maxDuration →
        b'.lastRefill = b.lastRefill + Int.fdiv (now - b.lastRefill) Second * Second ∧
        0 ≤ now - b'.lastRefill ∧ now - b'.lastRefill < Second ∧ b'.tokens = 9) ∧
      (time.maxDuration < now - b.lastRefill →
        b'.lastRefill = b.lastRefill + 9223372036 * Second ∧ b'.tokens = 9) ∧
      (Int.fdiv (now - b.lastRefill) Second < 1 →
        b'.lastRefill = b.lastRefill ∧ refill b now = b ∧
        b'.tokens = if 0 < b.tokens then b.tokens - 1 else b.tokens) := by
  refine ⟨_, allow_fst_get_self rl now k, ?_, ?_, ?_⟩
  · intro hs hspan
    rw [Int.fdiv_eq_ediv _ (by decide : (0 : Int) ≤ Second)] at hs ⊢
    unfold Second at hs ⊢
    unfold time.maxDuration at hspan
    have hge : 1000000000 ≤ now - b.lastRefill := by omega
    have hmin : min (now - b.lastRefill) 9223372036854775807 = now - b.lastRefill := by
      omega
    simp only [hb, refill_eq, hge, if_true, hmin]
    simp
    omega
  · intro hspan
    unfold time.maxDuration at hspan
    unfold Second
    have hge : 1000000000 ≤ now - b.lastRefill := by omega
    have hmin : min (now - b.lastRefill) 9223372036854775807 = 9223372036854775807 := by
      omega
    simp only [hb, refill_eq, hge, if_true, hmin]
    simp
  · intro hs
    rw [Int.fdiv_eq_ediv _ (by decide : (0 : Int) ≤ Second)] at hs
    unfold Second at hs
    have hlt : ¬ (1000000000 ≤ now - b.lastRefill) := by omega
    simp only [hb, refill_eq, hlt, if_false]
    by_cases ht : b.tokens > 0
    · have ht2 : 0 < b.tokens := ht
      simp [ht2]
    · have ht2 : ¬ (0 < b.tokens) := ht
      simp [ht2]

/-- Witness of C5, amended: a call 2.5 seconds after the last refill moves
`lastRefill` by 2 seconds. -/
theorem refill_advances_whole_seconds_witness :
    (RateLimiter.allow { clients := [("client", { tokens := 3, lastRefill := 100 })] }
        2500000100 "client").1.clients.get "client"
      = some { tokens := 9, lastRefill := 2000000100 } := by
  obtain ⟨b', hb', h1, _⟩ :=
    refill_advances_whole_seconds
      { clients := [("client", { tokens := 3, lastRefill := 100 })] }
      "client" { tokens := 3, lastRefill := 100 } 2500000100 (by decide)
  have h := h1 (by decide) (by decide)
  rw [hb']
  obtain ⟨t, l⟩ := b'
  simp only at h
  have hl : l = 2000000100 := by rw [h.1]; decide
  rw [hl, h.2.2.2]

/-- C6: from a reachable limiter state, among calls `allow(k)` at non-decreasing
clock readings that all lie in the window `[L, L + 1s)`, where `L` is the
`lastRefill` of the bucket after the first call, at most 10 return allow, and
once a call returns deny every later call returns deny. -/
theorem window_at_most_ten (rl : RateLimiter) (hr : RateLimiter.Reachable rl) (k : String)
    (t0 : Int) (ts : List Int) (b : clientBucket)
    (hb : (rl.allow t0 k).1.clients.get k = some b)
    (_hmono : List.Pairwise (fun a b => a ≤ b) (t0 :: ts))
    (hwin : ∀ t ∈ t0 :: ts, b.lastRefill ≤ t ∧ t < b.lastRefill + Second) :
    (allowSeq rl k (t0 :: ts)).2.count true ≤ 10 ∧
    List.Pairwise (fun r r' : Bool => r = false → r' = false) (allowSeq rl k (t0 :: ts)).2 := by
  have hbnd := reachable_bounds_aux rl hr
  have hb0 := allow_preserves_bounds rl t0 k hbnd k b hb
  have hw : ∀ t ∈ ts, t - b.lastRefill < Second := fun t ht => by
    have := (hwin t (List.mem_cons_of_mem _ ht)).2
    omega
  obtain ⟨n, hn⟩ := Int.eq_ofNat_of_zero_le hb0.1
  have hb2 : (rl.allow t0 k).1.clients.get k
      = some { tokens := (n : Int), lastRefill := b.lastRefill } := by
    rw [hb, ← hn]
  have hrest := allowSeq_drain k b.lastRefill ts _ n hb2 hw
  simp only [allowSeq]
  rw [hrest]
  cases hres : (rl.allow t0 k).2 with
  | false =>
    have hsame := allow_fst_of_deny rl t0 k hres
    have ht0 : t0 - b.lastRefill < Second := by
      have := (hwin t0 (List.mem_cons_self _ _)).2
      omega
    have hz : n = 0 := by
      rw [allow_snd] at hres
      rw [hsame] at hb
      rw [hb] at hres
      simp only [decide_eq_false_iff_not, refill_of_lt b t0 ht0] at hres
      omega
    subst hz
    have hl : false :: (List.replicate (min 0 ts.length) true
        ++ List.replicate (ts.length - 0) false)
        = List.replicate 0 true ++ List.replicate (ts.length + 1) false := by
      simp [List.replicate_succ]
    rw [hl]
    exact ⟨by rw [count_true_then_false]; omega, pairwise_true_then_false _ _⟩
  | true =>
    have h9 := allow_true_tokens_le_nine rl t0 k hbnd b hb hres
    have hl : true :: (List.replicate (min n ts.length) true
        ++ List.replicate (ts.length - n) false)
        = List.replicate (min n ts.length + 1) true
          ++ List.replicate (ts.length - n) false := by
      simp [List.replicate_succ]
    rw [hl]
    refine ⟨?_, pairwise_true_then_false _ _⟩
    rw [count_true_then_false]
    have : min n ts.length ≤ n := Nat.min_le_left _ _
    omega

/-- Witness of C6: twelve calls of one key within one window. -/
theorem window_at_most_ten_witness :
    (allowSeq NewRateLimiter "client" [0, 1, 2, 3, 4, 5, 6, 7, 8, 9, 10, 11]).2.count true
      ≤ 10 :=
  (window_at_most_ten NewRateLimiter RateLimiter.Reachable.init "client" 0
    [1, 2, 3, 4, 5, 6, 7, 8, 9, 10, 11] { tokens := 9, lastRefill := 0 }
    (by decide) (by decide) (by decide)).1

/-- C7: buckets are per key and independent. For distinct keys `k ≠ k'` (the
empty string included), `allow(k)` leaves the bucket of `k'` (presence, tokens,
`lastRefill`) as it was; and for two limiters that agree on the bucket of `k`,
`allow(k)` at the same clock reading gives the same result and the same new
bucket of `k`, whatever their other buckets are. -/
theorem buckets_independent (rl1 rl2 : RateLimiter) (now : Int) (k k' : String)
    (hne : k ≠ k') (hsame : rl1.clients.get k = rl2.clients.get k) :
    (rl1.allow now k).1.clients.get k' = rl1.clients.get k' ∧
    (rl1.allow now k).2 = (rl2.allow now k).2 ∧
    (rl1.allow now k).1.clients.get k = (rl2.allow now k).1.clients.get k := by
  refine ⟨allow_fst_get_ne rl1 now k k' hne, ?_, ?_⟩
  · rw [allow_snd, allow_snd, hsame]
  · rw [allow_fst_get_self, allow_fst_get_self, hsame]

/-- Witness of C7: a call under the empty key next to a drained bucket of another key. -/
theorem buckets_independent_witness :
    (RateLimiter.allow { clients := [("client", { tokens := 0, lastRefill := 0 })] }
        5 "").1.clients.get "client" = some { tokens := 0, lastRefill := 0 } :=
  (buckets_independent { clients := [("client", { tokens := 0, lastRefill := 0 })] }
    { clients := [] } 5 "" "client" (by decide) (by decide)).1

end middleware

/-! ## Task storage: auxiliary lemmas -/

namespace storage

theorem Update_nextID (s : TaskStorage) (id : Int) (done : Bool) :
    (s.Update id done).1.nextID = s.nextID := by
  unfold TaskStorage.Update
  cases s.tasks.get id <;> rfl

theorem wellFormed_new : NewTaskStorage.WellFormed := by
  intro id task h
  simp [NewTaskStorage, GoMap.get] at h

theorem wellFormed_Create (s : TaskStorage) (title : String) (h : s.WellFormed)
    (h1 : 1 ≤ s.nextID) : (s.Create title).1.WellFormed := by
  intro id task hg
  simp only [TaskStorage.Create] at hg ⊢
  by_cases hid : s.nextID = id
  · subst hid
    rw [GoMap.get_set_self] at hg
    simp only [Option.some.injEq] at hg
    subst hg
    simp only [true_and]
    omega
  · rw [GoMap.get_set_ne _ _ _ _ hid] at hg
    have := h id task hg
    omega

theorem wellFormed_Update (s : TaskStorage) (id : Int) (done : Bool) (h : s.WellFormed) :
    (s.Update id done).1.WellFormed := by
  intro id' task hg
  unfold TaskStorage.Update at hg ⊢
  cases hs : s.tasks.get id with
  | none =>
    simp only [hs] at hg ⊢
    exact h id' task hg
  | some old =>
    simp only [hs] at hg ⊢
    by_cases hid : id = id'
    · subst hid
      rw [GoMap.get_set_self] at hg
      simp only [Option.some.injEq] at hg
      subst hg
      exact h id old hs
    · rw [GoMap.get_set_ne _ _ _ _ hid] at hg
      exact h id' task hg

/-- Running calls keeps the invariant, never lowers `nextID`, and hands out
strictly increasing IDs from `[s.nextID, nextID)`. -/
theorem runCalls_ids (calls : List Call) :
    ∀ s : TaskStorage, s.WellFormed → 1 ≤ s.nextID →
      (runCalls s calls).1.WellFormed ∧
      s.nextID ≤ (runCalls s calls).1.nextID ∧
      (∀ task ∈ (runCalls s calls).2,
        s.nextID ≤ task.ID ∧ task.ID < (runCalls s calls).1.nextID) ∧
      List.Pairwise (fun a b : models.Task => a.ID < b.ID) (runCalls s calls).2 := by
  induction calls with
  | nil =>
    intro s hw _
    simp [runCalls, hw]
  | cons c calls ih =>
    intro s hw h1
    cases c with
    | create title =>
      have hw2 := wellFormed_Create s title hw h1
      have hn : (s.Create title).1.nextID = s.nextID + 1 := rfl
      have hid : (s.Create title).2.ID = s.nextID := rfl
      obtain ⟨i1, i2, i3, i4⟩ := ih (s.Create title).1 hw2 (by omega)
      simp only [runCalls]
      refine ⟨i1, by omega, ?_, ?_⟩
      · intro task ht
        rcases List.mem_cons.mp ht with h | h
        · subst h
          omega
        · have := i3 task h
          omega
      · rw [List.pairwise_cons]
        refine ⟨?_, i4⟩
        intro task h
        have := i3 task h
        omega
    | update id done =>
      have hw2 := wellFormed_Update s id done hw
      have hn := Update_nextID s id done
      obtain ⟨i1, i2, i3, i4⟩ := ih (s.Update id done).1 hw2 (by omega)
      simp only [runCalls]
      refine ⟨i1, by omega, ?_, i4⟩
      intro task ht
      have := i3 task ht
      omega

end storage

/-! ## Task storage: theorems -/

namespace storage

/-- C8: in every store state reached from `NewTaskStorage` by `Create` and
`Update` calls, `Create(t)` returns a task with title `t`, `done = false` and
an ID strictly greater than the ID of every task created before it and of
every stored task, and it increments `nextID` by exactly one; the IDs handed
out along any call sequence are strictly increasing, so no two are equal. -/
theorem create_fresh_id (calls : List Call) (t : String) :
    ((runCalls NewTaskStorage calls).1.Create t).2.Title = t ∧
    ((runCalls NewTaskStorage calls).1.Create t).2.Done = false ∧
    (∀ task ∈ (runCalls NewTaskStorage calls).2,
      task.ID < ((runCalls NewTaskStorage calls).1.Create t).2.ID) ∧
    (∀ id task, (runCalls NewTaskStorage calls).1.tasks.get id = some task →
      task.ID < ((runCalls NewTaskStorage calls).1.Create t).2.ID) ∧
    ((runCalls NewTaskStorage calls).1.Create t).1.nextID
      = (runCalls NewTaskStorage calls).1.nextID + 1 ∧
    List.Pairwise (fun a b : models.Task => a.ID < b.ID)
      ((runCalls NewTaskStorage calls).2
        ++ [((runCalls NewTaskStorage calls).1.Create t).2]) := by
  obtain ⟨i1, _, i3, i4⟩ :=
    runCalls_ids calls NewTaskStorage wellFormed_new (by decide)
  refine ⟨rfl, rfl, ?_, ?_, rfl, ?_⟩
  · intro task ht
    exact (i3 task ht).2
  · intro id task hg
    have := i1 id task hg
    show task.ID < (runCalls NewTaskStorage calls).1.nextID
    omega
  · rw [List.pairwise_append]
    refine ⟨i4, List.pairwise_singleton _ _, ?_⟩
    intro a ha b hb
    rw [List.mem_singleton] at hb
    subst hb
    exact (i3 a ha).2

/-- C9: round trip. In every store state, `GetByID` of the ID of the task just
returned by `Create(t)` reports found and returns that task (same ID, title
and done flag). -/
theorem getByID_create (s : TaskStorage) (t : String) :
    (s.Create t).1.GetByID (s.Create t).2.ID = ((s.Create t).2, true) := by
  simp [TaskStorage.Create, TaskStorage.GetByID, GoMap.get_set_self]

/-- C10: in every store state and for every ID present in the store,
`Update(id, d)` returns success and afterwards `GetByID(id)` finds a task with
`done = d`; a second `Update(id, d)` succeeds too and leaves the store state of
the first. -/
theorem update_sets_done_idempotent (s : TaskStorage) (id : Int) (d : Bool)
    (hid : (s.GetByID id).2 = true) :
    (s.Update id d).2 = true ∧
    ((s.Update id d).1.GetByID id).2 = true ∧
    ((s.Update id d).1.GetByID id).1.Done = d ∧
    ((s.Update id d).1.Update id d).2 = true ∧
    ((s.Update id d).1.Update id d).1 = (s.Update id d).1 := by
  unfold TaskStorage.GetByID at hid
  cases hg : s.tasks.get id with
  | none => simp [hg] at hid
  | some task =>
    have hu : s.Update id d
        = ({ s with tasks := s.tasks.set id { task with Done := d } }, true) := by
      simp [TaskStorage.Update, hg]
    rw [hu]
    simp [TaskStorage.Update, TaskStorage.GetByID, GoMap.get_set_self, GoMap.set_set]

/-- Witness of C10: marking the first task of a two-task store as done. -/
theorem update_sets_done_idempotent_witness :
    (((((NewTaskStorage.Create "a").1.Create "b").1.Update 1 true).1.GetByID 1).1.Done
      = true) :=
  (update_sets_done_idempotent ((NewTaskStorage.Create "a").1.Create "b").1 1 true
    (by decide)).2.2.1

end storage

/-! ## Association-list lemmas: keys and entries -/

namespace GoMap

variable {K V : Type} [DecidableEq K]

theorem get_eq_none_iff (m : GoMap K V) (k : K) :
    get m k = none ↔ k ∉ m.map Prod.fst := by
  induction m with
  | nil => simp [get]
  | cons e m ih =>
    obtain ⟨k1, v1⟩ := e
    by_cases h : k1 = k
    · simp [get, h]
    · have h2 : ¬ k = k1 := fun h3 => h h3.symm
      simp [get, h, h2, ih]

theorem set_of_get_none (m : GoMap K V) (k : K) (v : V) (h : get m k = none) :
    set m k v = m ++ [(k, v)] := by
  induction m with
  | nil => simp [set]
  | cons e m ih =>
    obtain ⟨k1, v1⟩ := e
    by_cases h1 : k1 = k
    · simp [get, h1] at h
    · simp only [get, h1, if_false] at h
      simp [set, h1, ih h]

theorem map_fst_set_of_get_some (m : GoMap K V) (k : K) (v0 v : V)
    (h : get m k = some v0) : (set m k v).map Prod.fst = m.map Prod.fst := by
  induction m with
  | nil => simp [get] at h
  | cons e m ih =>
    obtain ⟨k1, v1⟩ := e
    by_cases h1 : k1 = k
    · simp [set, h1]
    · simp only [get, h1, if_false] at h
      simp [set, h1, ih h]

theorem mem_set (m : GoMap K V) (k : K) (v : V) (e : K × V) (he : e ∈ set m k v) :
    e ∈ m ∨ e = (k, v) := by
  induction m with
  | nil =>
    simp only [set, List.mem_singleton] at he
    exact Or.inr he
  | cons e1 m ih =>
    obtain ⟨k1, v1⟩ := e1
    by_cases h1 : k1 = k
    · simp only [set, h1, if_true, List.mem_cons] at he
      rcases he with he | he
      · exact Or.inr he
      · exact Or.inl (List.mem_cons_of_mem _ he)
    · simp only [set, h1, if_false, List.mem_cons] at he
      rcases he with he | he
      · exact Or.inl (by rw [he]; exact List.mem_cons_self _ _)
      · rcases ih he with h2 | h2
        · exact Or.inl (List.mem_cons_of_mem _ h2)
        · exact Or.inr h2

theorem mem_of_get_some (m : GoMap K V) (k : K) (v : V) (h : get m k = some v) :
    (k, v) ∈ m := by
  induction m with
  | nil => simp [get] at h
  | cons e m ih =>
    obtain ⟨k1, v1⟩ := e
    by_cases h1 : k1 = k
    · simp only [get, h1, if_true, Option.some.injEq] at h
      rw [h1, h]
      exact List.mem_cons_self _ _
    · simp only [get, h1, if_false] at h
      exact List.mem_cons_of_mem _ (ih h)

theorem get_of_mem_of_nodup (m : GoMap K V) (k : K) (v : V)
    (hn : (m.map Prod.fst).Nodup) (h : (k, v) ∈ m) : get m k = some v := by
  induction m with
  | nil => simp at h
  | cons e m ih =>
    obtain ⟨k1, v1⟩ := e
    simp only [List.map_cons, List.nodup_cons] at hn
    rcases List.mem_cons.mp h with h1 | h1
    · simp only [Prod.mk.injEq] at h1
      simp [get, h1.1, h1.2]
    · have hk : k ∈ m.map Prod.fst := List.mem_map.mpr ⟨(k, v), h1, rfl⟩
      have hne : ¬ k1 = k := fun h2 => hn.1 (h2 ▸ hk)
      simp only [get, hne, if_false]
      exact ih hn.2 h1

end GoMap

/-! ## Task storage: the key set -/

namespace storage

/-- In a reachable store the keys are `1, …, n` with `nextID = n + 1`, and each
task is stored under its own ID. -/
theorem reachable_keys (s : TaskStorage) (hr : TaskStorage.Reachable s) :
    ∃ n : Nat, s.nextID = (n : Int) + 1 ∧
      s.tasks.map Prod.fst = (List.range n).map (fun i : Nat => (i : Int) + 1) ∧
      ∀ e ∈ s.tasks, e.2.ID = e.1 := by
  induction hr with
  | init => exact ⟨0, by simp [NewTaskStorage], by simp [NewTaskStorage], by simp [NewTaskStorage]⟩
  | create s title _ ih =>
    obtain ⟨n, hn, hk, he⟩ := ih
    have hnone : s.tasks.get s.nextID = none := by
      rw [GoMap.get_eq_none_iff, hk]
      intro hmem
      obtain ⟨i, hi, hi2⟩ := List.mem_map.mp hmem
      have := List.mem_range.mp hi
      omega
    refine ⟨n + 1, ?_, ?_, ?_⟩
    · simp only [TaskStorage.Create, hn]
      push_cast
      ring
    · simp only [TaskStorage.Create]
      rw [GoMap.set_of_get_none _ _ _ hnone, List.map_append, hk, List.range_succ,
        List.map_append]
      simp [hn]
    · intro e hmem
      simp only [TaskStorage.Create] at hmem
      rcases GoMap.mem_set _ _ _ _ hmem with h1 | h1
      · exact he e h1
      · rw [h1]
  | update s id done _ ih =>
    obtain ⟨n, hn, hk, he⟩ := ih
    unfold TaskStorage.Update
    cases hg : s.tasks.get id with
    | none => exact ⟨n, hn, hk, he⟩
    | some task =>
      refine ⟨n, hn, ?_, ?_⟩
      · simp only
        rw [GoMap.map_fst_set_of_get_some _ _ task _ hg, hk]
      · intro e hmem
        simp only at hmem
        rcases GoMap.mem_set _ _ _ _ hmem with h1 | h1
        · exact he e h1
        · rw [h1]
          exact he (id, task) (GoMap.mem_of_get_some _ _ _ hg)

/-- Successive `Create` calls hand out consecutive IDs, starting at `nextID`. -/
theorem creates_consecutive_ids (titles : List String) :
    ∀ s : TaskStorage,
      (runCalls s (titles.map Call.create)).2.map (fun task => task.ID)
        = (List.range titles.length).map (fun i : Nat => s.nextID + (i : Int)) := by
  induction titles with
  | nil => intro s; simp [runCalls]
  | cons t titles ih =>
    intro s
    simp only [List.map_cons, runCalls, List.length_cons]
    rw [ih (s.Create t).1, List.range_succ_eq_map]
    simp only [List.map_cons, List.map_map, TaskStorage.Create]
    congr 1
    · simp
    · apply List.map_congr_left
      intro i _
      simp only [Function.comp]
      push_cast
      ring

theorem nodup_range_succ (n : Nat) :
    ((List.range n).map (fun i : Nat => (i : Int) + 1)).Nodup := by
  apply List.Nodup.map _ (List.nodup_range n)
  intro a b hab
  simp only at hab
  omega

end storage

/-! ## Task storage: further theorems -/

namespace storage

/-- C11: in every store state, for every integer `id` under which no task is
stored (0 and negative numbers included) and every `d`, `Update(id, d)` returns
false and leaves the store (task map and `nextID`) as it was, and `GetByID(id)`
reports not found. -/
theorem update_missing_id (s : TaskStorage) (id : Int) (d : Bool)
    (h : s.tasks.get id = none) :
    s.Update id d = (s, false) ∧ (s.GetByID id).2 = false := by
  simp [TaskStorage.Update, TaskStorage.GetByID, h]

/-- Witness of C11: an update of ID 0 in a store that holds the tasks 1 and 2. -/
theorem update_missing_id_witness :
    ((NewTaskStorage.Create "a").1.Create "b").1.Update 0 true
      = (((NewTaskStorage.Create "a").1.Create "b").1, false) :=
  (update_missing_id ((NewTaskStorage.Create "a").1.Create "b").1 0 true (by decide)).1

/-- C12: only the done field is mutable. In every store state, for a task
stored under `id` and every `d`, after `Update(id, d)` the task under `id` has
the ID and title it had and `done = d`, every other entry is as it was, the
keys of the map are the same (no task added or removed), and `nextID` is unchanged. -/
theorem update_only_done (s : TaskStorage) (id : Int) (d : Bool) (task : models.Task)
    (h : s.tasks.get id = some task) :
    (s.Update id d).1.tasks.get id
      = some { ID := task.ID, Title := task.Title, Done := d } ∧
    (∀ id', id' ≠ id → (s.Update id d).1.tasks.get id' = s.tasks.get id') ∧
    (s.Update id d).1.tasks.map Prod.fst = s.tasks.map Prod.fst ∧
    (s.Update id d).1.GetAll.length = s.GetAll.length ∧
    (s.Update id d).1.nextID = s.nextID := by
  have hu : s.Update id d
      = ({ s with tasks := s.tasks.set id { task with Done := d } }, true) := by
    simp [TaskStorage.Update, h]
  rw [hu]
  have hkeys := GoMap.map_fst_set_of_get_some s.tasks id task { task with Done := d } h
  refine ⟨GoMap.get_set_self _ _ _, ?_, hkeys, ?_, rfl⟩
  · intro id' hne
    exact GoMap.get_set_ne _ _ _ _ (fun h2 => hne h2.symm)
  · have hl := congrArg List.length hkeys
    simpa [TaskStorage.GetAll] using hl

/-- Witness of C12: marking task 1 of a two-task store as done leaves task 2 as it was. -/
theorem update_only_done_witness :
    (((NewTaskStorage.Create "a").1.Create "b").1.Update 1 true).1.tasks.get 2
      = ((NewTaskStorage.Create "a").1.Create "b").1.tasks.get 2 :=
  (update_only_done ((NewTaskStorage.Create "a").1.Create "b").1 1 true
    { ID := 1, Title := "a", Done := false } (by decide)).2.1 2 (by decide)

/-- C20: the representation invariant of the store. In every store state
reachable from `NewTaskStorage` by `Create`, `Update`, `GetAll` and `GetByID`:
`nextID ≥ 1`; an ID is a key of the map exactly when it lies in
`1, …, nextID - 1`; each task is stored under its own ID; `GetAll` returns
`nextID - 1` tasks, whose IDs are `1, …, nextID - 1` in some order, each being
the task stored under its ID. (`GetAll` and `GetByID` return no new store.) -/
theorem reachable_store_invariant (s : TaskStorage) (hr : TaskStorage.Reachable s) :
    1 ≤ s.nextID ∧
    (∀ id : Int, (s.tasks.get id).isSome = true ↔ 1 ≤ id ∧ id < s.nextID) ∧
    (∀ id task, s.tasks.get id = some task → task.ID = id) ∧
    (s.GetAll.length : Int) = s.nextID - 1 ∧
    List.Perm (s.GetAll.map (fun task => task.ID))
      ((List.range (s.nextID - 1).toNat).map (fun i : Nat => (i : Int) + 1)) ∧
    (∀ task ∈ s.GetAll, s.tasks.get task.ID = some task) := by
  obtain ⟨n, hn, hk, he⟩ := reachable_keys s hr
  have hnat : (s.nextID - 1).toNat = n := by omega
  have hids : s.GetAll.map (fun task => task.ID) = s.tasks.map Prod.fst := by
    simp only [TaskStorage.GetAll, List.map_map]
    apply List.map_congr_left
    intro e hmem
    exact he e hmem
  refine ⟨by omega, ?_, ?_, ?_, ?_, ?_⟩
  · intro id
    rw [← Option.ne_none_iff_isSome, Ne, GoMap.get_eq_none_iff, not_not, hk]
    constructor
    · intro hmem
      obtain ⟨i, hi, hi2⟩ := List.mem_map.mp hmem
      have := List.mem_range.mp hi
      omega
    · intro hid
      refine List.mem_map.mpr ⟨(id - 1).toNat, List.mem_range.mpr (by omega), by omega⟩
  · intro id task hg
    exact he (id, task) (GoMap.mem_of_get_some _ _ _ hg)
  · have hl := congrArg List.length hk
    simp only [List.length_map, List.length_range] at hl
    simp only [TaskStorage.GetAll, List.length_map, hl]
    omega
  · rw [hids, hk, hnat]
  · intro task hmem
    simp only [TaskStorage.GetAll] at hmem
    obtain ⟨e, hmem2, he2⟩ := List.mem_map.mp hmem
    have hid := he e hmem2
    have hnd : (s.tasks.map Prod.fst).Nodup := by rw [hk]; exact nodup_range_succ n
    apply GoMap.get_of_mem_of_nodup _ _ _ hnd
    rw [← he2, hid]
    exact hmem2

/-- Witness of C20: the store after two creates and an update. -/
theorem reachable_store_invariant_witness :
    ((((NewTaskStorage.Create "a").1.Create "b").1.Update 1 true).1.GetAll.length : Int)
      = (((NewTaskStorage.Create "a").1.Create "b").1.Update 1 true).1.nextID - 1 :=
  (reachable_store_invariant (((NewTaskStorage.Create "a").1.Create "b").1.Update 1 true).1
    (TaskStorage.Reachable.update _ 1 true
      (TaskStorage.Reachable.create _ "b"
        (TaskStorage.Reachable.create _ "a" TaskStorage.Reachable.init)))).2.2.2.1

end storage

/-! ## Pipeline: auxiliary lemmas -/

namespace main

open http handlers middleware

theorem get_apiKey_ne (r : Request) (h : r.apiKeyHeader ≠ some RequiredAPIKey) :
    Get r.apiKeyHeader ≠ RequiredAPIKey := by
  cases hk : r.apiKeyHeader with
  | none => simp only [Get, Option.getD_none]; decide
  | some k =>
    simp only [Get, Option.getD_some]
    intro h2
    exact h (by rw [hk, h2])

theorem APIKeyMiddleware_reject (next : HandlerFunc) (sv : Server) (r : Request)
    (h : Get r.apiKeyHeader ≠ RequiredAPIKey) :
    APIKeyMiddleware next sv r
      = (sv, { status := 401, body := Body.error { Error := "unauthorized" } }) := by
  simp [APIKeyMiddleware, h, StatusUnauthorized]

theorem APIKeyMiddleware_pass (next : HandlerFunc) (sv : Server) (r : Request)
    (h : Get r.apiKeyHeader = RequiredAPIKey) :
    APIKeyMiddleware next sv r = next sv r := by
  simp [APIKeyMiddleware, h]

theorem RateLimitMiddleware_deny (now : Int) (next : HandlerFunc) (sv : Server) (r : Request)
    (h : (sv.rateLimiter.allow now (Get r.apiKeyHeader)).2 = false) :
    RateLimitMiddleware now next sv r
      = (sv, { status := 429, body := Body.error { Error := "rate limit exceeded" } }) := by
  have hs := allow_fst_of_deny sv.rateLimiter now (Get r.apiKeyHeader) h
  simp [RateLimitMiddleware, h, hs, StatusTooManyRequests]

theorem RateLimitMiddleware_allow (now : Int) (next : HandlerFunc) (sv : Server) (r : Request)
    (h : (sv.rateLimiter.allow now (Get r.apiKeyHeader)).2 = true) :
    RateLimitMiddleware now next sv r = next (charged sv now r) r := by
  simp [RateLimitMiddleware, h, charged]

theorem serve_of_passes (ToLower : String → String) (sv : Server) (now : Int) (r : Request)
    (h : PassesGates sv now r) :
    serve ToLower sv now r = tasksHandler ToLower (charged sv now r) r := by
  unfold serve LoggingMiddleware.ServeHTTP handler
  rw [APIKeyMiddleware_pass _ _ _ h.1, RateLimitMiddleware_allow _ _ _ _ h.2]

theorem tasksHandler_get (ToLower : String → String) (sv : Server) (r : Request)
    (hm : r.Method = "GET") :
    tasksHandler ToLower sv r
      = ({ sv with taskHandler := (sv.taskHandler.GetTasks ToLower r).1 },
          (sv.taskHandler.GetTasks ToLower r).2) := by
  simp [tasksHandler, hm, MethodGet]

theorem tasksHandler_post (ToLower : String → String) (sv : Server) (r : Request)
    (hm : r.Method = "POST") :
    tasksHandler ToLower sv r
      = ({ sv with taskHandler := (sv.taskHandler.CreateTask r).1 },
          (sv.taskHandler.CreateTask r).2) := by
  simp [tasksHandler, hm, MethodGet, MethodPost]

theorem tasksHandler_patch (ToLower : String → String) (sv : Server) (r : Request)
    (hm : r.Method = "PATCH") :
    tasksHandler ToLower sv r
      = ({ sv with taskHandler := (sv.taskHandler.UpdateTask r).1 },
          (sv.taskHandler.UpdateTask r).2) := by
  simp [tasksHandler, hm, MethodGet, MethodPost, MethodPatch]

theorem GetTasks_fst (ToLower : String → String) (h : TaskHandler) (r : Request) :
    (h.GetTasks ToLower r).1 = h := by
  unfold TaskHandler.GetTasks
  dsimp only
  repeat' split
  all_goals rfl

theorem TrimSpace_of_all_space (s : String)
    (h : ∀ c ∈ s.toList, strings.isSpace c = true) : strings.TrimSpace s = "" := by
  have h1 : s.toList.dropWhile strings.isSpace = [] := by
    rw [List.dropWhile_eq_nil_iff]
    exact h
  unfold strings.TrimSpace
  rw [h1]
  rfl

theorem parseBool_eq_none (ToLower : String → String) (v : String)
    (h1 : ToLower (strings.TrimSpace v) ≠ "true")
    (h2 : ToLower (strings.TrimSpace v) ≠ "false") : parseBool ToLower v = none := by
  simp [parseBool, h1, h2]

theorem Atoi_some_ne_empty (v : String) (id : Int) (h : strconv.Atoi v = some id) :
    v ≠ "" := by
  intro h0
  have hnone : strconv.Atoi "" = none := by decide
  rw [h0, hnone] at h
  exact absurd h (by simp)

theorem Update_GetByID (s : storage.TaskStorage) (id : Int) (d : Bool)
    (h : (s.Update id d).2 = true) :
    ((s.Update id d).1.GetByID id).2 = true ∧ ((s.Update id d).1.GetByID id).1.Done = d := by
  unfold storage.TaskStorage.Update at h ⊢
  cases hg : s.tasks.get id with
  | none => simp [hg] at h
  | some task => simp [storage.TaskStorage.GetByID, GoMap.get_set_self]

theorem GetTasks_by_id (ToLower : String → String) (h : TaskHandler) (r : Request)
    (id : Int) (d : Bool) (hm : r.Method = "GET")
    (hid : strconv.Atoi (Get r.queryID) = some id) (hne : Get r.queryDone ≠ "")
    (hd : parseBool ToLower (Get r.queryDone) = some d) :
    (h.GetTasks ToLower r).2 =
      if (h.storage.GetByID id).2 = true ∧ (h.storage.GetByID id).1.Done = d then
        { status := 200, body := Body.task (h.storage.GetByID id).1 }
      else
        { status := 404, body := Body.error { Error := "task not found" } } := by
  have h1 := Atoi_some_ne_empty _ _ hid
  cases hex : (h.storage.GetByID id).2 with
  | false =>
    simp [TaskHandler.GetTasks, hm, MethodGet, h1, hid, hex, sendError, StatusNotFound]
  | true =>
    by_cases hdone : (h.storage.GetByID id).1.Done = d
    · simp [TaskHandler.GetTasks, hm, MethodGet, h1, hid, hex, hne, hd, hdone, sendJSON,
        StatusOK]
    · simp [TaskHandler.GetTasks, hm, MethodGet, h1, hid, hex, hne, hd, hdone, sendError,
        StatusNotFound]

theorem UpdateTask_valid (h : TaskHandler) (r : Request) (id : Int)
    (req : models.UpdateTaskRequest) (hm : r.Method = "PATCH")
    (hid : strconv.Atoi (Get r.queryID) = some id) (hb : r.updateBody = some req) :
    h.UpdateTask r =
      ({ storage := (h.storage.Update id req.Done).1 },
        if (h.storage.Update id req.Done).2 = true then
          { status := 200, body := Body.updated { Updated := true } }
        else
          { status := 404, body := Body.error { Error := "task not found" } }) := by
  have h1 := Atoi_some_ne_empty _ _ hid
  cases hu : (h.storage.Update id req.Done).2 <;>
    simp [TaskHandler.UpdateTask, hm, MethodPatch, h1, hid, hb, hu, sendError, sendJSON,
      StatusNotFound, StatusOK]

/-- What one request can do to the store: nothing, one `Create` of a title that
is not blank (answered 201 with the created task), or one `Update`. -/
theorem serve_storage_cases (ToLower : String → String) (sv : Server) (now : Int)
    (r : Request) :
    (serve ToLower sv now r).1.taskHandler.storage = sv.taskHandler.storage ∨
    (∃ req : models.CreateTaskRequest, r.Method = "POST" ∧ r.createBody = some req ∧
      strings.TrimSpace req.Title ≠ "" ∧
      (serve ToLower sv now r).1.taskHandler.storage
        = (sv.taskHandler.storage.Create req.Title).1 ∧
      (serve ToLower sv now r).2
        = { status := 201, body := Body.task (sv.taskHandler.storage.Create req.Title).2 }) ∨
    (∃ (id : Int) (d : Bool),
      (serve ToLower sv now r).1.taskHandler.storage
        = (sv.taskHandler.storage.Update id d).1) := by
  by_cases hk : Get r.apiKeyHeader = RequiredAPIKey
  · cases ha : (sv.rateLimiter.allow now (Get r.apiKeyHeader)).2 with
    | false =>
      left
      unfold serve LoggingMiddleware.ServeHTTP handler
      rw [APIKeyMiddleware_pass _ _ _ hk, RateLimitMiddleware_deny _ _ _ _ ha]
    | true =>
      rw [serve_of_passes ToLower sv now r ⟨hk, ha⟩]
      have hst : (charged sv now r).taskHandler = sv.taskHandler := rfl
      by_cases hg : r.Method = "GET"
      · left
        rw [tasksHandler_get ToLower _ r hg]
        simp only [GetTasks_fst, hst]
      · by_cases hpost : r.Method = "POST"
        · rw [tasksHandler_post ToLower _ r hpost, hst]
          cases hb : r.createBody with
          | none =>
            left
            simp [TaskHandler.CreateTask, hpost, MethodPost, hb]
          | some req =>
            by_cases ht : strings.TrimSpace req.Title = ""
            · left
              simp [TaskHandler.CreateTask, hpost, MethodPost, hb, ht]
            · right; left
              refine ⟨req, hpost, rfl, ht, ?_, ?_⟩
              · simp [TaskHandler.CreateTask, hpost, MethodPost, hb, ht]
              · simp [TaskHandler.CreateTask, hpost, MethodPost, hb, ht, sendJSON,
                  StatusCreated]
        · by_cases hpatch : r.Method = "PATCH"
          · rw [tasksHandler_patch ToLower _ r hpatch, hst]
            by_cases h1 : Get r.queryID = ""
            · left
              simp [TaskHandler.UpdateTask, hpatch, MethodPatch, h1]
            · cases h2 : strconv.Atoi (Get r.queryID) with
              | none =>
                left
                simp [TaskHandler.UpdateTask, hpatch, MethodPatch, h1, h2]
              | some id =>
                cases h3 : r.updateBody with
                | none =>
                  left
                  simp [TaskHandler.UpdateTask, hpatch, MethodPatch, h1, h2, h3]
                | some req =>
                  right; right
                  refine ⟨id, req.Done, ?_⟩
                  rw [UpdateTask_valid _ r id req hpatch h2 h3]
          · left
            simp [tasksHandler, hg, hpost, hpatch, MethodGet, MethodPost, MethodPatch, charged]
  · left
    unfold serve LoggingMiddleware.ServeHTTP handler
    rw [APIKeyMiddleware_reject _ _ _ hk]

/-- Where a task stored after one request comes from: it was stored before
under the same ID with the same title, or this request is the POST that
created it. -/
theorem serve_task_origin (ToLower : String → String) (sv : Server) (now : Int)
    (r : Request) (id : Int) (task : models.Task)
    (h : (serve ToLower sv now r).1.taskHandler.storage.tasks.get id = some task) :
    (∃ task0, sv.taskHandler.storage.tasks.get id = some task0 ∧ task0.Title = task.Title) ∨
    (r.Method = "POST" ∧ r.createBody = some { Title := task.Title } ∧
      strings.TrimSpace task.Title ≠ "" ∧
      (serve ToLower sv now r).2
        = { status := 201,
            body := Body.task { ID := id, Title := task.Title, Done := false } }) := by
  rcases serve_storage_cases ToLower sv now r with hc | ⟨req, hm, hb, ht, hs, hresp⟩ | ⟨id', d, hs⟩
  · rw [hc] at h
    exact Or.inl ⟨task, h, rfl⟩
  · rw [hs] at h
    simp only [storage.TaskStorage.Create] at h
    by_cases hid : sv.taskHandler.storage.nextID = id
    · rw [hid, GoMap.get_set_self] at h
      simp only [Option.some.injEq] at h
      right
      rw [hresp]
      subst h
      simp only [storage.TaskStorage.Create, hid]
      exact ⟨hm, hb, ht, trivial⟩
    · rw [GoMap.get_set_ne _ _ _ _ hid] at h
      exact Or.inl ⟨task, h, rfl⟩
  · rw [hs] at h
    unfold storage.TaskStorage.Update at h
    cases hg : sv.taskHandler.storage.tasks.get id' with
    | none =>
      simp only [hg] at h
      exact Or.inl ⟨task, h, rfl⟩
    | some old =>
      simp only [hg] at h
      by_cases hid : id' = id
      · rw [hid, GoMap.get_set_self] at h
        simp only [Option.some.injEq] at h
        subst h
        exact Or.inl ⟨old, by rw [← hid]; exact hg, rfl⟩
      · rw [GoMap.get_set_ne _ _ _ _ hid] at h
        exact Or.inl ⟨task, h, rfl⟩

theorem serveAll_task_origin (ToLower : String → String) (reqs : List (Int × Request)) :
    ∀ (sv : Server) (id : Int) (task : models.Task),
      (serveAll ToLower sv reqs).1.taskHandler.storage.tasks.get id = some task →
      (∃ task0, sv.taskHandler.storage.tasks.get id = some task0 ∧
        task0.Title = task.Title) ∨
      (∃ e ∈ List.zip reqs (serveAll ToLower sv reqs).2,
        e.1.2.Method = "POST" ∧ e.1.2.createBody = some { Title := task.Title } ∧
        strings.TrimSpace task.Title ≠ "" ∧
        e.2 = { status := 201,
                body := Body.task { ID := id, Title := task.Title, Done := false } }) := by
  induction reqs with
  | nil =>
    intro sv id task h
    exact Or.inl ⟨task, h, rfl⟩
  | cons q rest ih =>
    intro sv id task h
    obtain ⟨now, r⟩ := q
    simp only [serveAll] at h ⊢
    rcases ih (serve ToLower sv now r).1 id task h with ⟨task0, h0, ht0⟩ | ⟨e, he, hprop⟩
    · rcases serve_task_origin ToLower sv now r id task0 h0 with
        ⟨task00, h00, ht00⟩ | ⟨hm, hb, ht, hresp⟩
      · exact Or.inl ⟨task00, h00, by rw [ht00, ht0]⟩
      · right
        refine ⟨((now, r), (serve ToLower sv now r).2), ?_, ?_⟩
        · simp
        · rw [ht0] at hb ht hresp
          exact ⟨hm, hb, ht, hresp⟩
    · right
      refine ⟨e, ?_, hprop⟩
      simp only [List.zip_cons_cons]
      exact List.mem_cons_of_mem _ he

/-- The route handler never answers 401 or 429: these come from the gates only. -/
theorem tasksHandler_status (ToLower : String → String) (sv : Server) (r : Request) :
    (tasksHandler ToLower sv r).2.status ≠ 401 ∧
    (tasksHandler ToLower sv r).2.status ≠ 429 := by
  unfold tasksHandler TaskHandler.GetTasks TaskHandler.CreateTask TaskHandler.UpdateTask
  dsimp only
  repeat' split
  all_goals
    simp [sendError, sendJSON, StatusOK, StatusCreated, StatusBadRequest, StatusNotFound,
      StatusMethodNotAllowed]

theorem GetByID_of_get_some (s : storage.TaskStorage) (id : Int) (task : models.Task)
    (h : s.tasks.get id = some task) : s.GetByID id = (task, true) := by
  simp [storage.TaskStorage.GetByID, h]

theorem GetByID_of_get_none (s : storage.TaskStorage) (id : Int)
    (h : s.tasks.get id = none) : (s.GetByID id).2 = false := by
  simp [storage.TaskStorage.GetByID, h]

end main

/-! ## Pipeline: theorems -/

namespace main

open http handlers middleware

/-- C13: for every request to `/tasks` whose `X-API-KEY` header is absent or is
not the required key, whatever its method, query and body and whatever the
store and limiter states, the server answers 401 with the error body
`unauthorized` and leaves the whole state (store and limiter) as it was; the
API-key gate gives this answer for every inner handler `next`, so neither the
rate-limit gate nor the route handler is run. -/
theorem unauthorized_short_circuits (ToLower : String → String) (sv : Server) (now : Int)
    (r : Request) (hkey : r.apiKeyHeader ≠ some RequiredAPIKey) :
    serve ToLower sv now r
      = (sv, { status := 401, body := Body.error { Error := "unauthorized" } }) ∧
    ∀ next : HandlerFunc, APIKeyMiddleware next sv r
      = (sv, { status := 401, body := Body.error { Error := "unauthorized" } }) := by
  have h := get_apiKey_ne r hkey
  refine ⟨?_, fun next => APIKeyMiddleware_reject next sv r h⟩
  unfold serve LoggingMiddleware.ServeHTTP handler
  exact APIKeyMiddleware_reject _ sv r h

/-- Witness of C13: a POST without the header, with a valid body. -/
theorem unauthorized_short_circuits_witness :
    serve strings.ToLowerASCII start 0
        { Method := "POST", apiKeyHeader := none, queryID := none, queryDone := none,
          createBody := some { Title := "x" }, updateBody := none }
      = (start, { status := 401, body := Body.error { Error := "unauthorized" } }) :=
  (unauthorized_short_circuits strings.ToLowerASCII start 0
    { Method := "POST", apiKeyHeader := none, queryID := none, queryDone := none,
      createBody := some { Title := "x" }, updateBody := none } (by decide)).1

/-- C14: the server runs the chain `handler` that `main` builds, the API-key
gate around the rate-limit gate around `tasksHandler`. The answer of the server
is the answer of the route handler `tasksHandler` (run in the state with the
request charged) exactly when the key is the required one and `allow` of that
header value returns true; the same holds of the two gates around any handler
`next`. With another key the server answers 401 and the limiter is not
consulted (the state is unchanged), so the API-key gate comes first. With the
required key and a denying limiter the server answers 429 with the error body
`rate limit exceeded`, and the state, the task store included, is unchanged. -/
theorem handler_reached_iff (ToLower : String → String) (sv : Server) (now : Int)
    (r : Request) :
    (serve ToLower sv now r = handler ToLower now sv r ∧
      handler ToLower now
        = APIKeyMiddleware (RateLimitMiddleware now (tasksHandler ToLower))) ∧
    (serve ToLower sv now r = tasksHandler ToLower (charged sv now r) r ↔
      (Get r.apiKeyHeader = RequiredAPIKey ∧
        (sv.rateLimiter.allow now (Get r.apiKeyHeader)).2 = true)) ∧
    ((∀ next : HandlerFunc,
        APIKeyMiddleware (RateLimitMiddleware now next) sv r = next (charged sv now r) r) ↔
      (Get r.apiKeyHeader = RequiredAPIKey ∧
        (sv.rateLimiter.allow now (Get r.apiKeyHeader)).2 = true)) ∧
    (Get r.apiKeyHeader ≠ RequiredAPIKey →
      serve ToLower sv now r
        = (sv, { status := 401, body := Body.error { Error := "unauthorized" } }) ∧
      ∀ next : HandlerFunc, APIKeyMiddleware (RateLimitMiddleware now next) sv r
        = (sv, { status := 401, body := Body.error { Error := "unauthorized" } })) ∧
    (Get r.apiKeyHeader = RequiredAPIKey →
      (sv.rateLimiter.allow now (Get r.apiKeyHeader)).2 = false →
      (∀ next : HandlerFunc, APIKeyMiddleware (RateLimitMiddleware now next) sv r
        = (sv, { status := 429, body := Body.error { Error := "rate limit exceeded" } })) ∧
      serve ToLower sv now r
        = (sv, { status := 429, body := Body.error { Error := "rate limit exceeded" } }) ∧
      (serve ToLower sv now r).1.taskHandler.storage = sv.taskHandler.storage) := by
  have h401 : Get r.apiKeyHeader ≠ RequiredAPIKey →
      ∀ next : HandlerFunc, APIKeyMiddleware (RateLimitMiddleware now next) sv r
        = (sv, { status := 401, body := Body.error { Error := "unauthorized" } }) :=
    fun h next => APIKeyMiddleware_reject _ sv r h
  have h429 : Get r.apiKeyHeader = RequiredAPIKey →
      (sv.rateLimiter.allow now (Get r.apiKeyHeader)).2 = false →
      ∀ next : HandlerFunc, APIKeyMiddleware (RateLimitMiddleware now next) sv r
        = (sv, { status := 429, body := Body.error { Error := "rate limit exceeded" } }) :=
    fun h hd next => by
      rw [APIKeyMiddleware_pass _ _ _ h, RateLimitMiddleware_deny _ _ _ _ hd]
  have hserve : serve ToLower sv now r
      = APIKeyMiddleware (RateLimitMiddleware now (tasksHandler ToLower)) sv r := rfl
  have hstatus := tasksHandler_status ToLower (charged sv now r) r
  refine ⟨⟨rfl, rfl⟩, ⟨?_, ?_⟩, ⟨?_, ?_⟩, ?_, ?_⟩
  · intro heq
    by_cases hk : Get r.apiKeyHeader = RequiredAPIKey
    · refine ⟨hk, ?_⟩
      cases hd : (sv.rateLimiter.allow now (Get r.apiKeyHeader)).2 with
      | true => rfl
      | false =>
        rw [hserve, h429 hk hd] at heq
        have hst := congrArg (fun p : Server × Response => p.2.status) heq
        exact absurd hst.symm hstatus.2
    · rw [hserve, h401 hk] at heq
      have hst := congrArg (fun p : Server × Response => p.2.status) heq
      exact absurd hst.symm hstatus.1
  · intro hp
    exact serve_of_passes ToLower sv now r hp
  · intro hall
    have hprobe := hall (fun _ _ => (sv, { status := 200, body := Body.empty }))
    by_cases hk : Get r.apiKeyHeader = RequiredAPIKey
    · refine ⟨hk, ?_⟩
      cases hd : (sv.rateLimiter.allow now (Get r.apiKeyHeader)).2 with
      | true => rfl
      | false =>
        rw [h429 hk hd] at hprobe
        simp at hprobe
    · rw [h401 hk] at hprobe
      simp at hprobe
  · intro hp next
    rw [APIKeyMiddleware_pass _ _ _ hp.1, RateLimitMiddleware_allow _ _ _ _ hp.2]
  · intro hk
    exact ⟨by rw [hserve]; exact h401 hk _, h401 hk⟩
  · intro hk hd
    have hs : serve ToLower sv now r
        = (sv, { status := 429, body := Body.error { Error := "rate limit exceeded" } }) := by
      rw [hserve]
      exact h429 hk hd _
    exact ⟨h429 hk hd, hs, by rw [hs]⟩

/-- C15: invalid write requests are rejected before the store is touched. A
POST that cleared the gates and whose body does not decode, or whose title is
empty or made of white space only, and a PATCH that cleared the gates and
whose `id` parameter is missing or not an integer, or whose body does not
decode, is answered 400, and the task store (task map and `nextID`) is as it was. -/
theorem invalid_write_rejected (ToLower : String → String) (sv : Server) (now : Int)
    (r : Request) (hp : PassesGates sv now r)
    (hbad :
      (r.Method = "POST" ∧
        (r.createBody = none ∨
          ∃ req, r.createBody = some req ∧ ∀ c ∈ req.Title.toList, strings.isSpace c = true)) ∨
      (r.Method = "PATCH" ∧
        (r.queryID = none ∨ strconv.Atoi (Get r.queryID) = none ∨ r.updateBody = none))) :
    (serve ToLower sv now r).2.status = 400 ∧
    (serve ToLower sv now r).1.taskHandler.storage = sv.taskHandler.storage := by
  rw [serve_of_passes ToLower sv now r hp]
  rcases hbad with ⟨hm, hb⟩ | ⟨hm, hb⟩
  · rw [tasksHandler_post ToLower _ r hm]
    rcases hb with hb | ⟨req, hb, hsp⟩
    · simp [TaskHandler.CreateTask, hm, MethodPost, hb, sendError, StatusBadRequest, charged]
    · have ht := TrimSpace_of_all_space req.Title hsp
      simp [TaskHandler.CreateTask, hm, MethodPost, hb, ht, sendError, StatusBadRequest,
        charged]
  · rw [tasksHandler_patch ToLower _ r hm]
    have hcases : Get r.queryID = "" ∨ strconv.Atoi (Get r.queryID) = none
        ∨ r.updateBody = none := by
      rcases hb with hb | hb | hb
      · exact Or.inl (by simp [Get, hb])
      · exact Or.inr (Or.inl hb)
      · exact Or.inr (Or.inr hb)
    by_cases h1 : Get r.queryID = ""
    · simp [TaskHandler.UpdateTask, hm, MethodPatch, h1, sendError, StatusBadRequest, charged]
    · cases h2 : strconv.Atoi (Get r.queryID) with
      | none =>
        simp [TaskHandler.UpdateTask, hm, MethodPatch, h1, h2, sendError, StatusBadRequest,
          charged]
      | some id =>
        have h3 : r.updateBody = none := by
          rcases hcases with h | h | h
          · exact absurd h h1
          · rw [h2] at h; exact absurd h (by simp)
          · exact h
        simp [TaskHandler.UpdateTask, hm, MethodPatch, h1, h2, h3, sendError,
          StatusBadRequest, charged]

/-- Witness of C15: a POST with a title of blanks and a tab, with the required key. -/
theorem invalid_write_rejected_witness :
    (serve strings.ToLowerASCII start 0
        { Method := "POST", apiKeyHeader := some "secret12345", queryID := none,
          queryDone := none, createBody := some { Title := " \t " },
          updateBody := none }).2.status = 400 :=
  (invalid_write_rejected strings.ToLowerASCII start 0
    { Method := "POST", apiKeyHeader := some "secret12345", queryID := none,
      queryDone := none, createBody := some { Title := " \t " }, updateBody := none }
    (by decide) (by decide)).1

/-- C16, as stated, fails at a concrete request: a GET with the required key
that the limiter allows, with `id=7` on the empty store and `done=maybe` (a
value that is not empty and, trimmed and lower-cased, is neither `true` nor
`false`; it is in lower case already, so `strings.ToLower` leaves it as it
is), is answered 404, not 400. -/
theorem invalid_done_not_always_400 :
    PassesGates start 0
        { Method := "GET", apiKeyHeader := some "secret12345", queryID := some "7",
          queryDone := some "maybe", createBody := none, updateBody := none } ∧
    Get (some "maybe") ≠ "" ∧
    strings.ToLowerASCII (strings.TrimSpace (Get (some "maybe"))) = "maybe" ∧
    strconv.Atoi "7" = some 7 ∧
    (start.taskHandler.storage.GetByID 7).2 = false ∧
    (serve strings.ToLowerASCII start 0
        { Method := "GET", apiKeyHeader := some "secret12345", queryID := some "7",
          queryDone := some "maybe", createBody := none, updateBody := none }).2
      = { status := 404, body := Body.error { Error := "task not found" } } := by
  decide

/-- C16, amended: for a GET that cleared the gates and whose `done` value is
non-empty and, trimmed and lower-cased, is neither `true` nor `false`, the
answer is 400 when the `id` parameter is absent or empty, when it is not an
integer, and when it is the ID of a stored task; when it is an integer under
which no task is stored, the answer is 404 (the lookup of the task comes before
the check of `done`). The store is unchanged in every case. -/
theorem invalid_done_status (ToLower : String → String) (sv : Server) (now : Int)
    (r : Request) (hp : PassesGates sv now r) (hm : r.Method = "GET")
    (hne : Get r.queryDone ≠ "")
    (ht : ToLower (strings.TrimSpace (Get r.queryDone)) ≠ "true")
    (hf : ToLower (strings.TrimSpace (Get r.queryDone)) ≠ "false") :
    (Get r.queryID = "" → (serve ToLower sv now r).2.status = 400) ∧
    (strconv.Atoi (Get r.queryID) = none → (serve ToLower sv now r).2.status = 400) ∧
    (∀ id, strconv.Atoi (Get r.queryID) = some id →
      (sv.taskHandler.storage.GetByID id).2 = true →
      (serve ToLower sv now r).2.status = 400) ∧
    (∀ id, strconv.Atoi (Get r.queryID) = some id →
      (sv.taskHandler.storage.GetByID id).2 = false →
      (serve ToLower sv now r).2.status = 404) ∧
    (serve ToLower sv now r).1.taskHandler.storage = sv.taskHandler.storage := by
  have hpb := parseBool_eq_none ToLower (Get r.queryDone) ht hf
  rw [serve_of_passes ToLower sv now r hp, tasksHandler_get ToLower _ r hm]
  have hst : (charged sv now r).taskHandler = sv.taskHandler := rfl
  rw [hst]
  refine ⟨?_, ?_, ?_, ?_, ?_⟩
  · intro h0
    simp [TaskHandler.GetTasks, hm, MethodGet, h0, hne, hpb, sendError, StatusBadRequest]
  · intro h0
    by_cases h1 : Get r.queryID = ""
    · simp [TaskHandler.GetTasks, hm, MethodGet, h1, hne, hpb, sendError, StatusBadRequest]
    · simp [TaskHandler.GetTasks, hm, MethodGet, h1, h0, sendError, StatusBadRequest]
  · intro id h0 hex
    by_cases h1 : Get r.queryID = ""
    · simp [TaskHandler.GetTasks, hm, MethodGet, h1, hne, hpb, sendError, StatusBadRequest]
    · simp [TaskHandler.GetTasks, hm, MethodGet, h1, h0, hex, hne, hpb, sendError,
        StatusBadRequest]
  · intro id h0 hex
    have h1 := Atoi_some_ne_empty _ _ h0
    simp [TaskHandler.GetTasks, hm, MethodGet, h1, h0, hex, sendError, StatusNotFound]
  · simp only [GetTasks_fst]

/-- Witness of C16, amended: `done=maybe` with the ID of a stored task gives 400. -/
theorem invalid_done_status_witness :
    (serve strings.ToLowerASCII
        { taskHandler := { storage := (storage.NewTaskStorage.Create "a").1 },
          rateLimiter := NewRateLimiter } 0
        { Method := "GET", apiKeyHeader := some "secret12345", queryID := some "1",
          queryDone := some "maybe", createBody := none, updateBody := none }).2.status
      = 400 :=
  (invalid_done_status strings.ToLowerASCII
    { taskHandler := { storage := (storage.NewTaskStorage.Create "a").1 },
      rateLimiter := NewRateLimiter } 0
    { Method := "GET", apiKeyHeader := some "secret12345", queryID := some "1",
      queryDone := some "maybe", createBody := none, updateBody := none }
    (by decide) (by decide) (by decide) (by decide) (by decide)).2.2.1 1
    (by decide) (by decide)

/-- C17: for a GET that cleared the gates, with an integer `id` and a `done`
value that, trimmed and lower-cased, is `true` or `false` (the filter value
`d`): the answer is 200 with the stored task exactly when the task map holds a
task under `id` whose done field is `d`, and 404 `task not found` otherwise,
that is both when the map holds no task under that ID and when the task's done
field differs; the store is unchanged. In particular, in the state left by a
PATCH of that ID that was answered 200 and set `done = true`, the GET with
`done=false` is answered 404. -/
theorem get_by_id_with_filter (ToLower : String → String) (sv : Server) (now : Int)
    (r : Request) (id : Int) (d : Bool) (hp : PassesGates sv now r)
    (hm : r.Method = "GET") (hid : strconv.Atoi (Get r.queryID) = some id)
    (hne : Get r.queryDone ≠ "")
    (hd : (ToLower (strings.TrimSpace (Get r.queryDone)) = "true" ∧ d = true) ∨
      (ToLower (strings.TrimSpace (Get r.queryDone)) = "false" ∧ d = false)) :
    ((serve ToLower sv now r).2 =
      match sv.taskHandler.storage.tasks.get id with
      | some task =>
        if task.Done = d then { status := 200, body := Body.task task }
        else { status := 404, body := Body.error { Error := "task not found" } }
      | none => { status := 404, body := Body.error { Error := "task not found" } }) ∧
    ((serve ToLower sv now r).2.status = 200 ↔
      ∃ task, sv.taskHandler.storage.tasks.get id = some task ∧ task.Done = d) ∧
    (serve ToLower sv now r).1.taskHandler.storage = sv.taskHandler.storage ∧
    (∀ (sv0 : Server) (now0 : Int) (p : Request),
      PassesGates sv0 now0 p → p.Method = "PATCH" →
      strconv.Atoi (Get p.queryID) = some id → p.updateBody = some { Done := true } →
      (serve ToLower sv0 now0 p).2.status = 200 → sv = (serve ToLower sv0 now0 p).1 →
      d = false → (serve ToLower sv now r).2.status = 404) := by
  have hpb : parseBool ToLower (Get r.queryDone) = some d := by
    rcases hd with ⟨h1, h2⟩ | ⟨h1, h2⟩
    · simp [parseBool, h1, h2]
    · simp [parseBool, h1, h2]
  have hresp0 : (serve ToLower sv now r).2 =
      if (sv.taskHandler.storage.GetByID id).2 = true ∧
          (sv.taskHandler.storage.GetByID id).1.Done = d then
        { status := 200, body := Body.task (sv.taskHandler.storage.GetByID id).1 }
      else
        { status := 404, body := Body.error { Error := "task not found" } } := by
    rw [serve_of_passes ToLower sv now r hp, tasksHandler_get ToLower _ r hm]
    exact GetTasks_by_id ToLower sv.taskHandler r id d hm hid hne hpb
  have hresp : (serve ToLower sv now r).2 =
      match sv.taskHandler.storage.tasks.get id with
      | some task =>
        if task.Done = d then { status := 200, body := Body.task task }
        else { status := 404, body := Body.error { Error := "task not found" } }
      | none => { status := 404, body := Body.error { Error := "task not found" } } := by
    rw [hresp0]
    cases hg : sv.taskHandler.storage.tasks.get id with
    | none => simp [GetByID_of_get_none _ _ hg]
    | some task => simp [GetByID_of_get_some _ _ _ hg]
  have hstore : (serve ToLower sv now r).1.taskHandler.storage = sv.taskHandler.storage := by
    rw [serve_of_passes ToLower sv now r hp, tasksHandler_get ToLower _ r hm]
    simp only [GetTasks_fst]
    rfl
  refine ⟨hresp, ?_, hstore, ?_⟩
  · rw [hresp]
    cases hg : sv.taskHandler.storage.tasks.get id with
    | none => simp
    | some task =>
      by_cases hc : task.Done = d
      · simp [hc]
      · simp [hc]
  · intro sv0 now0 p hp0 hm0 hid0 hb0 h200 hsv hfalse
    rw [serve_of_passes ToLower sv0 now0 p hp0, tasksHandler_patch ToLower _ p hm0,
      UpdateTask_valid _ p id { Done := true } hm0 hid0 hb0] at h200 hsv
    have hst : (charged sv0 now0 p).taskHandler.storage = sv0.taskHandler.storage := rfl
    rw [hst] at h200 hsv
    have hu : (sv0.taskHandler.storage.Update id true).2 = true := by
      cases hu : (sv0.taskHandler.storage.Update id true).2 with
      | true => rfl
      | false => simp [hu] at h200
    have hg := Update_GetByID sv0.taskHandler.storage id true hu
    have hs : sv.taskHandler.storage = (sv0.taskHandler.storage.Update id true).1 := by
      rw [hsv]
    rw [hresp0, hs, hfalse]
    simp [hg.1, hg.2]

/-- Witness of C17: in the store left by marking task 1 as done, the GET with
`id=1` and a `done` value of ` TRUE ` is answered 200 with that task. -/
theorem get_by_id_with_filter_witness :
    (serve strings.ToLowerASCII
        { taskHandler :=
            { storage := ((storage.NewTaskStorage.Create "a").1.Update 1 true).1 },
          rateLimiter := NewRateLimiter } 0
        { Method := "GET", apiKeyHeader := some "secret12345", queryID := some "1",
          queryDone := some " TRUE ", createBody := none, updateBody := none }).2
      = { status := 200, body := Body.task { ID := 1, Title := "a", Done := true } } :=
  (get_by_id_with_filter strings.ToLowerASCII
    { taskHandler := { storage := ((storage.NewTaskStorage.Create "a").1.Update 1 true).1 },
      rateLimiter := NewRateLimiter } 0
    { Method := "GET", apiKeyHeader := some "secret12345", queryID := some "1",
      queryDone := some " TRUE ", createBody := none, updateBody := none }
    1 true (by decide) (by decide) (by decide) (by decide) (by decide)).1

/-- C18: in every state reached from the start state (empty store) by any
sequence of requests served at any clock readings, every stored task has a
title that is not empty after trimming white space, and that title is the one
supplied in the body of a POST of the sequence, which was answered 201 with
the task under that ID. -/
theorem stored_titles_from_posts (ToLower : String → String) (reqs : List (Int × Request))
    (id : Int) (task : models.Task)
    (h : (serveAll ToLower start reqs).1.taskHandler.storage.tasks.get id = some task) :
    strings.TrimSpace task.Title ≠ "" ∧
    ∃ e ∈ List.zip reqs (serveAll ToLower start reqs).2,
      e.1.2.Method = "POST" ∧ e.1.2.createBody = some { Title := task.Title } ∧
      e.2 = { status := 201,
              body := Body.task { ID := id, Title := task.Title, Done := false } } := by
  rcases serveAll_task_origin ToLower reqs start id task h with
    ⟨task0, h0, _⟩ | ⟨e, he, hm, hb, ht, hresp⟩
  · simp [start, NewTaskHandler, storage.NewTaskStorage, GoMap.get] at h0
  · exact ⟨ht, e, he, hm, hb, hresp⟩

/-- Witness of C18: the task left by a rejected POST, a POST of ` x` and a PATCH. -/
theorem stored_titles_from_posts_witness : strings.TrimSpace " x" ≠ "" :=
  (stored_titles_from_posts strings.ToLowerASCII
    [(0, { Method := "POST", apiKeyHeader := some "secret12345", queryID := none,
           queryDone := none, createBody := some { Title := " " }, updateBody := none }),
     (1, { Method := "POST", apiKeyHeader := some "secret12345", queryID := none,
           queryDone := none, createBody := some { Title := " x" }, updateBody := none }),
     (2, { Method := "PATCH", apiKeyHeader := some "secret12345", queryID := some "1",
           queryDone := none, createBody := none, updateBody := some { Done := true } })]
    1 { ID := 1, Title := " x", Done := true } (by decide)).1

end main
